import Mathlib

/-!
# Verification of the gcal-imp interaction core

A shallow embedding of the modal-calendar interaction core (session state,
calendar layout engine, event form model, detail text navigator and
colon-command language) of the `gcal-imp` terminal calendar client, together
with proofs of the behavioural properties stated in its specification.

Modelling conventions:
* `chrono::NaiveDate` is modelled by `Gcal.Date`, a year/month/day triple with
  the usual Gregorian validity predicate and lexicographic order.  `chrono`
  restricts years to ±262143; the model uses unbounded years, so the
  `succ_opt`/`pred_opt`/`checked_add_days`/`checked_sub_days` operations of
  `chrono` (which only fail at that artificial bound) always succeed here.
* Weekday computation (`chrono`'s `Weekday::num_days_from_monday`) is modelled
  through a civil-calendar day count (`Gcal.rataDie`, days since 1970-01-01,
  which was a Thursday).
* Calls to `chrono::Local::now()` inside the Rust code are modelled by passing
  the current date (or hour) as an explicit argument.
* Rust `String`s that the algorithms treat character-wise are modelled as
  `List Char`; the `char::is_whitespace` / `char::is_alphanumeric` predicates
  are modelled by Lean's `Char.isWhitespace` / `Char.isAlphanum`.
-/

namespace Gcal

/-! ## Dates (model of `chrono::NaiveDate`) -/

def isLeapYear (y : Int) : Bool :=
  (y % 4 == 0 && y % 100 != 0) || (y % 400 == 0)

def daysInMonth (y : Int) (m : Nat) : Nat :=
  if m = 1 ∨ m = 3 ∨ m = 5 ∨ m = 7 ∨ m = 8 ∨ m = 10 ∨ m = 12 then 31
  else if m = 4 ∨ m = 6 ∨ m = 9 ∨ m = 11 then 30
  else if m = 2 then (if isLeapYear y then 29 else 28)
  else 0

structure Date where
  year : Int
  month : Nat
  day : Nat
deriving DecidableEq

/-- A valid Gregorian calendar date. -/
def Date.Valid (d : Date) : Prop :=
  1 ≤ d.month ∧ d.month ≤ 12 ∧ 1 ≤ d.day ∧ d.day ≤ daysInMonth d.year d.month

instance (d : Date) : Decidable d.Valid := by
  unfold Date.Valid; infer_instance

/-- Lexicographic comparison of dates; this is the order `chrono` gives
`NaiveDate` (comparison by year, then month, then day). -/
def Date.ble (a b : Date) : Bool :=
  a.year < b.year ||
    (a.year == b.year &&
      (a.month < b.month || (a.month == b.month && a.day ≤ b.day)))

def Date.blt (a b : Date) : Bool :=
  a.year < b.year ||
    (a.year == b.year &&
      (a.month < b.month || (a.month == b.month && a.day < b.day)))

/-- `min` of two dates under the `NaiveDate` order. -/
def Date.min (a b : Date) : Date := if a.ble b then a else b

/-- `max` of two dates under the `NaiveDate` order. -/
def Date.max (a b : Date) : Date := if a.ble b then b else a

/-- `NaiveDate::succ_opt`: the next calendar day (total in the unbounded
model). -/
def Date.succ (d : Date) : Date :=
  if d.day < daysInMonth d.year d.month then ⟨d.year, d.month, d.day + 1⟩
  else if d.month < 12 then ⟨d.year, d.month + 1, 1⟩
  else ⟨d.year + 1, 1, 1⟩

/-- `NaiveDate::pred_opt`: the previous calendar day (total in the unbounded
model). -/
def Date.pred (d : Date) : Date :=
  if 1 < d.day then ⟨d.year, d.month, d.day - 1⟩
  else if 1 < d.month then ⟨d.year, d.month - 1, daysInMonth d.year (d.month - 1)⟩
  else ⟨d.year - 1, 12, 31⟩

/-- `NaiveDate::checked_add_days(Days::new(n))`. -/
def Date.addDays (d : Date) (n : Nat) : Date := Date.succ^[n] d

/-- `NaiveDate::checked_sub_days(Days::new(n))`. -/
def Date.subDays (d : Date) (n : Nat) : Date := Date.pred^[n] d

/-- `NaiveDate::from_ymd_opt`. -/
def from_ymd_opt (y : Int) (m d : Nat) : Option Date :=
  if 1 ≤ m ∧ m ≤ 12 ∧ 1 ≤ d ∧ d ≤ daysInMonth y m then some ⟨y, m, d⟩ else none

/-- Days since 1970-01-01 of a civil date (standard civil-from-days inverse
formula; Lean's `Int` division is Euclidean so the `era` needs no negative
adjustment). -/
def rataDie (dt : Date) : Int :=
  let y : Int := if dt.month ≤ 2 then dt.year - 1 else dt.year
  let era : Int := y / 400
  let yoe : Int := y - era * 400
  let mp : Nat := (dt.month + 9) % 12
  let doy : Int := ((153 * mp + 2) / 5 : Nat) + (dt.day : Int) - 1
  let doe : Int := yoe * 365 + yoe / 4 - yoe / 100 + doy
  era * 146097 + doe - 719468

/-- `date.weekday().num_days_from_monday()`: 0 for Monday … 6 for Sunday.
1970-01-01 (`rataDie = 0`) was a Thursday, hence the offset 3. -/
def numDaysFromMonday (d : Date) : Nat := ((rataDie d + 3) % 7).toNat

/-! ## Data model (`src/app.rs`) -/

inductive Mode where
  | Normal | Insert | Visual | Command
deriving DecidableEq

inductive ViewType where
  | Month | Week | Day | Year
deriving DecidableEq

inductive SyncStatus where
  | Synced | Syncing | Offline
  | Error : String → SyncStatus
deriving DecidableEq

structure Position where
  x : Nat
  y : Nat
deriving DecidableEq

/-- A point in time: a civil date plus minutes past midnight.  Models the
`DateTime<Utc>` used for `Event::start`; only its date part and its order are
read by the embedded code. -/
structure DateTime where
  date : Date
  minutes : Nat
deriving DecidableEq

def DateTime.ble (a b : DateTime) : Bool :=
  a.date.blt b.date || (a.date == b.date && a.minutes ≤ b.minutes)

def DateTime.blt (a b : DateTime) : Bool :=
  a.date.blt b.date || (a.date == b.date && a.minutes < b.minutes)

/-- Model of `calendar::Event`.  The `end` field is called `stop` (`end` is a
Lean keyword); the fields that none of the embedded code reads
(`calendar_id`, `attendees`, `reminders`, `status`, `last_modified`,
`html_link`) are omitted. -/
structure Event where
  id : String
  title : String
  description : Option String
  location : Option String
  start : DateTime
  stop : DateTime
  all_day : Bool
deriving DecidableEq

/-- `Event::duration_minutes`: `(self.end - self.start).num_minutes()`. -/
def Event.duration_minutes (e : Event) : Int :=
  (rataDie e.stop.date - rataDie e.start.date) * 1440 +
    (e.stop.minutes : Int) - (e.start.minutes : Int)

inductive FormField where
  | Title | StartTime | Duration | Location | Description
deriving DecidableEq

structure EventForm where
  title : String
  date : Date
  start_hour : Nat
  start_minute : Nat
  duration_minutes : Nat
  location : String
  description : String
  active_field : FormField
  event_id : Option String
  time_input_buffer : List Char
  duration_input_buffer : List Char
  time_buffer_touched : Bool
  duration_buffer_touched : Bool
  all_day : Bool
deriving DecidableEq

structure AppState where
  mode : Mode
  view : ViewType
  selected_date : Date
  /-- The values of the `HashMap<String, Event>`; keys are the event ids. -/
  events : List Event
  cursor_position : Position
  sync_status : SyncStatus
  command_buffer : List Char
  search_query : Option String
  show_help : Bool
  help_scroll : Nat
  event_form : Option EventForm
  selected_event_index : Nat
  delete_confirmation_event_id : Option String
  visual_selection_start : Option Date
  detail_view_event_id : Option String
  detail_view_scroll : Nat
  detail_view_cursor_line : Nat
  detail_view_cursor_col : Nat
  detail_view_line_text : List (List Char)
  detail_view_visual_start : Option (Nat × Nat)
deriving DecidableEq

/-- `AppState::new` (the `theme` field, a pure rendering datum, is not
modelled; `Local::now().date_naive()` is the `today` argument). -/
def AppState.new (today : Date) : AppState where
  mode := Mode.Normal
  view := ViewType.Month
  selected_date := today
  events := []
  cursor_position := ⟨0, 0⟩
  sync_status := SyncStatus.Synced
  command_buffer := []
  search_query := none
  show_help := false
  help_scroll := 0
  event_form := none
  selected_event_index := 0
  delete_confirmation_event_id := none
  visual_selection_start := none
  detail_view_event_id := none
  detail_view_scroll := 0
  detail_view_cursor_line := 0
  detail_view_cursor_col := 0
  detail_view_line_text := []
  detail_view_visual_start := none

/-- `AppState::add_event`: `HashMap::insert` keyed by `event.id` (replaces an
existing entry with the same id). -/
def AppState.add_event (s : AppState) (e : Event) : AppState :=
  { s with events := e :: s.events.filter (fun x => x.id ≠ e.id) }

/-- Stable insertion of an event into a list sorted by start time: `e` goes
after every element whose start is strictly earlier and before the rest. -/
def insertByStart (e : Event) : List Event → List Event
  | [] => [e]
  | x :: xs =>
    if x.start.blt e.start then x :: insertByStart e xs else e :: x :: xs

/-- `Vec::sort_by_key(|e| e.start)`: a stable sort by start time, modelled as
stable insertion sort. -/
def sort_by_start : List Event → List Event
  | [] => []
  | e :: es => insertByStart e (sort_by_start es)

/-- `AppState::get_events_for_date`: the events starting on `date`, sorted by
start time. -/
def AppState.get_events_for_date (s : AppState) (date : Date) : List Event :=
  sort_by_start (s.events.filter (fun e => e.start.date = date))

def AppState.get_selected_event (s : AppState) : Option Event :=
  (s.get_events_for_date s.selected_date).get? s.selected_event_index

/-- `AppState::move_event_selection_down`. -/
def AppState.move_event_selection_down (s : AppState) : AppState :=
  let event_count := (s.get_events_for_date s.selected_date).length
  if 0 < event_count ∧ s.selected_event_index < event_count - 1 then
    { s with selected_event_index := s.selected_event_index + 1 }
  else s

/-- `AppState::move_event_selection_up`. -/
def AppState.move_event_selection_up (s : AppState) : AppState :=
  if 0 < s.selected_event_index then
    { s with selected_event_index := s.selected_event_index - 1 }
  else s

/-- `AppState::reset_event_selection`. -/
def AppState.reset_event_selection (s : AppState) : AppState :=
  { s with selected_event_index := 0 }

/-- `AppState::remove_event`. -/
def AppState.remove_event (s : AppState) (event_id : String) : AppState :=
  { s with events := s.events.filter (fun e => e.id ≠ event_id) }

/-- `AppState::get_visual_selection_range`. -/
def AppState.get_visual_selection_range (s : AppState) :
    Option (Date × Date) :=
  s.visual_selection_start.map (fun start =>
    let e := s.selected_date
    if start.ble e then (start, e) else (e, start))

/-- `AppState::is_date_in_visual_selection`. -/
def AppState.is_date_in_visual_selection (s : AppState) (date : Date) : Bool :=
  match s.get_visual_selection_range with
  | some (start, stop) => start.ble date && date.ble stop
  | none => false

/-! ## Numeric text helpers (models of Rust's `u32::from_str` and
`format!` with the `{:02}` width spec) -/

def digitsToNat (l : List Char) : Nat :=
  l.foldl (fun acc c => acc * 10 + (c.toNat - Char.toNat '0')) 0

/-- `str::parse::<u32>()`: an optional leading sign (`+` only for unsigned
types), then one or more ASCII digits, value within `u32` range. -/
def parseU32 (l : List Char) : Option Nat :=
  let ds := match l with
    | '+' :: r => r
    | _ => l
  if ds ≠ [] ∧ ds.all Char.isDigit ∧ digitsToNat ds < 2 ^ 32 then
    some (digitsToNat ds)
  else none

/-- Rust `format!` of a `u32` with the `{:02}` spec: the decimal digits,
zero-padded on the left to width 2. -/
def format02 (n : Nat) : List Char :=
  if n < 10 then '0' :: Nat.toDigits 10 n else Nat.toDigits 10 n

/-- The time buffer text `format!` produces for an hour and a minute. -/
def formatHM (h m : Nat) : List Char := format02 h ++ ':' :: format02 m

/-- Rust `Ord::clamp` on naturals. -/
def clampNat (v lo hi : Nat) : Nat := if v < lo then lo else if hi < v then hi else v

/-! ## Event form (`src/app.rs`, `impl EventForm`) -/

/-- `EventForm::new` (`now.hour()` passed as the `now_hour` argument). -/
def EventForm.new (now_hour : Nat) (date : Date) (title : String) : EventForm where
  title := title
  date := date
  start_hour := now_hour
  start_minute := 0
  duration_minutes := 60
  location := ""
  description := ""
  active_field := FormField.Title
  event_id := none
  time_input_buffer := formatHM now_hour 0
  duration_input_buffer := "60".data
  time_buffer_touched := false
  duration_buffer_touched := false
  all_day := false

/-- `EventForm::for_event` (the `as u32` cast of the `i64` duration wraps
modulo `2 ^ 32`). -/
def EventForm.for_event (event : Event) : EventForm :=
  let start_hour := event.start.minutes / 60
  let start_minute := event.start.minutes % 60
  let duration_minutes := (event.duration_minutes % (2 ^ 32 : Int)).toNat
  { title := event.title
    date := event.start.date
    start_hour := start_hour
    start_minute := start_minute
    duration_minutes := duration_minutes
    location := event.location.getD ""
    description := event.description.getD ""
    active_field := FormField.Title
    event_id := some event.id
    time_input_buffer := formatHM start_hour start_minute
    duration_input_buffer := Nat.toDigits 10 duration_minutes
    time_buffer_touched := false
    duration_buffer_touched := false
    all_day := event.all_day }

/-- `EventForm::new_all_day`. -/
def EventForm.new_all_day (date : Date) (title : String) (duration_days : Nat) :
    EventForm where
  title := title
  date := date
  start_hour := 0
  start_minute := 0
  duration_minutes := duration_days * 24 * 60
  location := ""
  description := ""
  active_field := FormField.Title
  event_id := none
  time_input_buffer := []
  duration_input_buffer := Nat.toDigits 10 duration_days
  time_buffer_touched := false
  duration_buffer_touched := false
  all_day := true

/-- `EventForm::next_field`. -/
def EventForm.next_field (f : EventForm) : EventForm :=
  if f.all_day then
    { f with active_field :=
        match f.active_field with
        | FormField.Title => FormField.Duration
        | FormField.Duration => FormField.Location
        | FormField.Location => FormField.Description
        | FormField.Description => FormField.Title
        | FormField.StartTime => FormField.Duration }
  else
    { f with active_field :=
        match f.active_field with
        | FormField.Title => FormField.StartTime
        | FormField.StartTime => FormField.Duration
        | FormField.Duration => FormField.Location
        | FormField.Location => FormField.Description
        | FormField.Description => FormField.Title }

/-- `EventForm::prev_field`. -/
def EventForm.prev_field (f : EventForm) : EventForm :=
  if f.all_day then
    { f with active_field :=
        match f.active_field with
        | FormField.Title => FormField.Description
        | FormField.Duration => FormField.Title
        | FormField.Location => FormField.Duration
        | FormField.Description => FormField.Location
        | FormField.StartTime => FormField.Title }
  else
    { f with active_field :=
        match f.active_field with
        | FormField.Title => FormField.Description
        | FormField.StartTime => FormField.Title
        | FormField.Duration => FormField.StartTime
        | FormField.Location => FormField.Duration
        | FormField.Description => FormField.Location }

/-- `EventForm::parse_time_input`. -/
def EventForm.parse_time_input (f : EventForm) : EventForm :=
  let input := f.time_input_buffer.filter (fun c => c ≠ ':')
  match parseU32 input with
  | some num =>
    if input.length = 3 ∨ input.length = 4 then
      let h0 := num / 100
      let m0 := num % 100
      let h := if 24 ≤ h0 then 23 else h0
      let m := if 60 ≤ m0 then 59 else m0
      { f with start_hour := h, start_minute := m,
               time_input_buffer := formatHM h m }
    else if input.length ≤ 2 then
      let h := Min.min num 23
      { f with start_hour := h, start_minute := 0,
               time_input_buffer := formatHM h 0 }
    else f
  | none => f

/-- `EventForm::parse_duration_input`. -/
def EventForm.parse_duration_input (f : EventForm) : EventForm :=
  match parseU32 f.duration_input_buffer with
  | some value =>
    if f.all_day then
      let days := clampNat value 1 365
      { f with duration_minutes := days * 24 * 60 }
    else
      { f with duration_minutes := clampNat value 1 10080 }
  | none => f

/-! ## Normal-mode key handling (`src/input/normal_mode.rs`) -/

/-- The `crossterm::event::KeyCode` constructors the handlers match on. -/
inductive KeyCode where
  | Char : Char → KeyCode
  | Enter | Esc | Backspace | Tab | BackTab
deriving DecidableEq

def has_events_on_selected_date (s : AppState) : Bool :=
  !(s.get_events_for_date s.selected_date).isEmpty

def move_previous_day (s : AppState) : AppState :=
  let s := { s with selected_date := s.selected_date.subDays 1 }
  s.reset_event_selection

def move_next_day (s : AppState) : AppState :=
  let s := { s with selected_date := s.selected_date.addDays 1 }
  s.reset_event_selection

def move_down_week (s : AppState) : AppState :=
  { s with selected_date := s.selected_date.addDays 7 }

def move_up_week (s : AppState) : AppState :=
  { s with selected_date := s.selected_date.subDays 7 }

def jump_to_today (today : Date) (s : AppState) : AppState :=
  ({ s with selected_date := today } : AppState).reset_event_selection

def enter_edit_mode (s : AppState) : AppState :=
  match s.get_selected_event with
  | some event =>
    { s with event_form := some (EventForm.for_event event), mode := Mode.Insert }
  | none => s

def delete_selected_event (s : AppState) : AppState :=
  match s.get_selected_event with
  | some event =>
    { s with delete_confirmation_event_id := some event.id, mode := Mode.Visual }
  | none => s

def enter_visual_mode (s : AppState) : AppState :=
  { s with visual_selection_start := some s.selected_date, mode := Mode.Visual }

def open_event_detail_view (s : AppState) : AppState :=
  match s.get_selected_event with
  | some event =>
    { s with detail_view_event_id := some event.id, detail_view_scroll := 0,
             detail_view_cursor_line := 0, detail_view_cursor_col := 0 }
  | none => s

def switch_to_month_view (s : AppState) : AppState := { s with view := ViewType.Month }

def switch_to_week_view (s : AppState) : AppState := { s with view := ViewType.Week }

def switch_to_day_view (s : AppState) : AppState := { s with view := ViewType.Day }

def switch_to_year_view (s : AppState) : AppState := { s with view := ViewType.Year }

def enter_insert_mode (now_hour : Nat) (s : AppState) : AppState :=
  { s with event_form := some (EventForm.new now_hour s.selected_date ""),
           mode := Mode.Insert }

def handle_enter_key (s : AppState) : AppState :=
  match s.view with
  | ViewType.Month => { s with view := ViewType.Day }
  | ViewType.Week => { s with view := ViewType.Day }
  | ViewType.Day =>
    match s.get_selected_event with
    | some _ => enter_edit_mode s
    | none => s
  | _ => s

def enter_command_mode (s : AppState) : AppState :=
  { s with mode := Mode.Command, command_buffer := ":".data }

def show_help (s : AppState) : AppState :=
  { s with mode := Mode.Command, command_buffer := ":help".data }

def handle_gg_motion (s : AppState) : AppState :=
  match from_ymd_opt s.selected_date.year s.selected_date.month 1 with
  | some first => { s with selected_date := first }
  | none => s

def move_to_end_of_month (s : AppState) : AppState :=
  let year := s.selected_date.year
  let month := s.selected_date.month
  let next_month_first :=
    if month = 12 then from_ymd_opt (year + 1) 1 1
    else from_ymd_opt year (month + 1) 1
  match next_month_first with
  | some first => { s with selected_date := first.subDays 1 }
  | none => s

def move_previous_month (s : AppState) : AppState :=
  let year := s.selected_date.year
  let month := s.selected_date.month
  let day := s.selected_date.day
  let p : Int × Nat := if month = 1 then (year - 1, 12) else (year, month - 1)
  let new_year := p.1
  let new_month := p.2
  let next_month_first :=
    (from_ymd_opt new_year (new_month + 1) 1).orElse
      (fun _ => from_ymd_opt (new_year + 1) 1 1)
  match next_month_first with
  | none => s
  | some first =>
    let last := first.subDays 1
    let new_day := Min.min day last.day
    match from_ymd_opt new_year new_month new_day with
    | some new_date => { s with selected_date := new_date }
    | none => s

def move_next_month (s : AppState) : AppState :=
  let year := s.selected_date.year
  let month := s.selected_date.month
  let day := s.selected_date.day
  let p : Int × Nat := if month = 12 then (year + 1, 1) else (year, month + 1)
  let new_year := p.1
  let new_month := p.2
  let next_month_first :=
    if new_month = 12 then from_ymd_opt (new_year + 1) 1 1
    else from_ymd_opt new_year (new_month + 1) 1
  match next_month_first with
  | none => s
  | some first =>
    let last := first.subDays 1
    let new_day := Min.min day last.day
    match from_ymd_opt new_year new_month new_day with
    | some new_date => { s with selected_date := new_date }
    | none => s

/-- `normal_mode::handle_key` (`Local::now()` data passed as `today` and
`now_hour`). -/
def handle_key (today : Date) (now_hour : Nat) (key : KeyCode) (s : AppState) :
    AppState :=
  match key with
  | KeyCode.Char c =>
    if c = 'h' then move_previous_day s
    else if c = 'j' then
      (if s.view = ViewType.Day ∨ has_events_on_selected_date s then
        s.move_event_selection_down
      else move_down_week s)
    else if c = 'k' then
      (if s.view = ViewType.Day ∨ has_events_on_selected_date s then
        s.move_event_selection_up
      else move_up_week s)
    else if c = 'l' then move_next_day s
    else if c = 't' then jump_to_today today s
    else if c = 'm' then switch_to_month_view s
    else if c = 'w' then switch_to_week_view s
    else if c = 'd' then switch_to_day_view s
    else if c = 'y' then switch_to_year_view s
    else if c = 'a' then enter_insert_mode now_hour s
    else if c = 'E' then enter_edit_mode s
    else if c = 'x' then delete_selected_event s
    else if c = 'v' then enter_visual_mode s
    else if c = 'i' then open_event_detail_view s
    else if c = ':' then enter_command_mode s
    else if c = '?' then show_help s
    else if c = 'g' then handle_gg_motion s
    else if c = 'G' then move_to_end_of_month s
    else if c = '{' then move_previous_month s
    else if c = '}' then move_next_month s
    else s
  | KeyCode.Enter => handle_enter_key s
  | _ => s

/-! ## Colon commands (`src/input/command_mode.rs`) -/

inductive Command where
  | Quit | Sync
  | Goto : Date → Command
  | NewEvent : Option String → Command
  | SwitchCalendar : String → Command
  | Theme : String → Command
  | Help
  | Error : String → Command
deriving DecidableEq

/-- Rust `str::trim`. -/
def trimChars (l : List Char) : List Char :=
  ((l.dropWhile Char.isWhitespace).reverse.dropWhile Char.isWhitespace).reverse

def splitWsAux : List Char → List Char → List (List Char)
  | [], acc => if acc.isEmpty then [] else [acc.reverse]
  | c :: cs, acc =>
    if c.isWhitespace then
      if acc.isEmpty then splitWsAux cs [] else acc.reverse :: splitWsAux cs []
    else splitWsAux cs (c :: acc)

/-- Rust `str::split_whitespace().collect()`: maximal runs of non-whitespace
characters. -/
def splitWhitespace (l : List Char) : List (List Char) := splitWsAux l []

/-- Model of `chrono::NaiveDate::parse_from_str(s, "%Y-%m-%d")`: a year (an
optional sign lifting the 4-digit width limit, then digits), `-`, a 1–2 digit
month, `-`, a 1–2 digit day, nothing trailing; resolved through calendar
validity.  (`chrono`'s year-range limit is not modelled, matching the
unbounded `Date`.) -/
def parse_from_str_ymd (s : List Char) : Option Date :=
  let t : Bool × List Char × Nat :=
    match s with
    | '-' :: r => (true, r, 100)
    | '+' :: r => (false, r, 100)
    | _ => (false, s, 4)
  let neg := t.1
  let s1 := t.2.1
  let width := t.2.2
  let yds := (s1.takeWhile Char.isDigit).take width
  if yds.isEmpty then none else
  let y : Int := if neg then -(digitsToNat yds : Int) else (digitsToNat yds : Int)
  match s1.drop yds.length with
  | '-' :: s2 =>
    let mds := (s2.takeWhile Char.isDigit).take 2
    if mds.isEmpty then none else
    match s2.drop mds.length with
    | '-' :: s3 =>
      let dds := (s3.takeWhile Char.isDigit).take 2
      if dds.isEmpty then none else
      if (s3.drop dds.length).isEmpty then
        from_ymd_opt y (digitsToNat mds) (digitsToNat dds)
      else none
    | _ => none
  | _ => none

/-- `command_mode::parse_command`. -/
def parse_command (input : List Char) : Command :=
  let trimmed := trimChars input
  match trimmed with
  | ':' :: command_text =>
    match splitWhitespace command_text with
    | [] => Command.Error "Empty command"
    | p0 :: rest =>
      if p0 = "q".data ∨ p0 = "quit".data then Command.Quit
      else if p0 = "w".data ∨ p0 = "write".data then Command.Sync
      else if p0 = "help".data then Command.Help
      else if p0 = "goto".data then
        match rest with
        | [] => Command.Error "goto requires a date argument"
        | arg :: _ =>
          match parse_from_str_ymd arg with
          | some date => Command.Goto date
          | none => Command.Error ("Invalid date format: " ++ String.mk arg)
      else if p0 = "new".data then
        match rest with
        | [] => Command.NewEvent none
        | _ => Command.NewEvent (some (String.mk (List.intercalate " ".data rest)))
      else if p0 = "cal".data ∨ p0 = "calendar".data then
        match rest with
        | [] => Command.Error "cal requires a calendar name"
        | n :: _ => Command.SwitchCalendar (String.mk n)
      else if p0 = "theme".data then
        match rest with
        | [] => Command.Error "theme requires a theme name"
        | n :: _ => Command.Theme (String.mk n)
      else Command.Error ("Unknown command: " ++ String.mk p0)
  | _ => Command.Error "Commands must start with \x27:\x27"

/-- The `Command::Goto` branch of `handle_command_mode`
(`src/tui/session.rs`): set the selected date, clear the buffer, return to
Normal mode (and nothing else — in particular the event selection index is
left as it was). -/
def AppState.apply_goto (s : AppState) (date : Date) : AppState :=
  { s with selected_date := date, command_buffer := [], mode := Mode.Normal }

/-! ## Detail text navigator (`src/tui/event_detail/navigation.rs`)

Lines are `List Char` (the Rust code is character-indexed throughout).  The
forward loops of `next_word_position` / `word_end_position` walk the suffix of
the line list and the backward loop of `prev_word_position` walks the reversed
prefix, returning a line offset which the wrapper adds to / subtracts from the
starting index; this makes the recursion structural.  A `while pos < len && p`
scan from `pos` is modelled as `pos + skipCount p (text.drop pos)`. -/

def is_word_char (ch : Char) : Bool := ch.isAlphanum || ch == '_'

/-- Length of the maximal prefix satisfying `p`. -/
def skipCount (p : Char → Bool) : List Char → Nat
  | [] => 0
  | c :: cs => if p c then skipCount p cs + 1 else 0

/-- `last_char_index`: `chars().count().saturating_sub(1)`. -/
def last_char_index (text : List Char) : Nat := text.length - 1

/-- `find_first_non_whitespace`. -/
def find_first_non_whitespace (text : List Char) : Nat :=
  (text.findIdx? (fun c => !c.isWhitespace)).getD 0

/-- `find_next_word_start`. -/
def find_next_word_start (text : List Char) (current_col : Nat) : Option Nat :=
  if text.isEmpty then none else
  let len := text.length
  let pos0 := Min.min current_col (len - 1)
  let c0 := text.getD pos0 ' '
  let pos1 :=
    if c0.isWhitespace then pos0 + skipCount Char.isWhitespace (text.drop pos0)
    else if is_word_char c0 then pos0 + skipCount is_word_char (text.drop pos0)
    else pos0 + skipCount (fun c => !c.isWhitespace && !is_word_char c) (text.drop pos0)
  let pos2 := pos1 + skipCount Char.isWhitespace (text.drop pos1)
  if pos2 < len then some pos2 else none

/-- `find_word_end`. -/
def find_word_end (text : List Char) (current_col : Nat) : Option Nat :=
  if text.isEmpty then none else
  let len := text.length
  let pos0 := current_col + 1
  let pos1 := pos0 + skipCount Char.isWhitespace (text.drop pos0)
  if len ≤ pos1 then none else
  let is_word := is_word_char (text.getD pos1 ' ')
  let pos2 := pos1 +
    skipCount (fun c => !c.isWhitespace && (is_word_char c == is_word)) (text.drop pos1)
  some (Min.min (pos2 - 1) (len - 1))

/-- Backward scan `while pos > 0 && chars[pos].is_whitespace() do pos -= 1`. -/
def backSkipWs (text : List Char) : Nat → Nat
  | 0 => 0
  | p + 1 => if (text.getD (p + 1) ' ').isWhitespace then backSkipWs text p else p + 1

/-- Backward scan over `chars[pos - 1]` while it stays in the same class. -/
def backSkipClass (text : List Char) (is_word : Bool) : Nat → Nat
  | 0 => 0
  | p + 1 =>
    let prev := text.getD p ' '
    if prev.isWhitespace then p + 1
    else if is_word_char prev != is_word then p + 1
    else backSkipClass text is_word p

/-- `find_prev_word_start`. -/
def find_prev_word_start (text : List Char) (current_col : Nat) : Option Nat :=
  if text.isEmpty then none else
  let len := text.length
  let pos0 := Min.min current_col len
  if pos0 = 0 then none else
  let pos1 := backSkipWs text (pos0 - 1)
  if (text.getD pos1 ' ').isWhitespace then none else
  some (backSkipClass text (is_word_char (text.getD pos1 ' ')) pos1)

/-- The line-walking loop of `next_word_position`: `cur` is the current line,
`rest` the lines after it; the result is (line offset, column). -/
def nextLoop : List Char → List (List Char) → Nat → Nat × Nat
  | cur, rest, col =>
    let len := cur.length
    if len = 0 ∨ len ≤ col then
      match rest with
      | [] => (0, 0)
      | next :: rest2 =>
        match next.findIdx? (fun c => !c.isWhitespace) with
        | some first_non_ws => (1, first_non_ws)
        | none =>
          let r := nextLoop next rest2 0
          (r.1 + 1, r.2)
    else
      match find_next_word_start cur col with
      | some next_col => (0, next_col)
      | none =>
        match rest with
        | [] => (0, last_char_index cur)
        | next :: rest2 =>
          match next.findIdx? (fun c => !c.isWhitespace) with
          | some first_non_ws => (1, first_non_ws)
          | none =>
            let r := nextLoop next rest2 0
            (r.1 + 1, r.2)

/-- `next_word_position`.  (The `line_idx >= lines.len()` re-check at the top
of the Rust loop is dead code after the initial clamp — the loop only ever
moves to `line_idx + 1` when that is `< lines.len()` — so it has no
counterpart here.) -/
def next_word_position (lines : List (List Char)) (line_idx col : Nat) :
    Nat × Nat :=
  match lines with
  | [] => (0, 0)
  | _ :: _ =>
    let li := Min.min line_idx (lines.length - 1)
    let r := nextLoop (lines.getD li []) (lines.drop (li + 1)) col
    (li + r.1, r.2)

/-- The line-walking loop of `word_end_position`. -/
def wordEndLoop : List Char → List (List Char) → Nat → Nat × Nat
  | cur, rest, col =>
    let len := cur.length
    if len = 0 ∨ len ≤ col then
      match rest with
      | [] => (0, 0)
      | next :: rest2 =>
        let r := wordEndLoop next rest2 0
        (r.1 + 1, r.2)
    else
      match find_word_end cur col with
      | some end_col => (0, end_col)
      | none =>
        match rest with
        | [] => (0, last_char_index cur)
        | next :: rest2 =>
          let r := wordEndLoop next rest2 0
          (r.1 + 1, r.2)

/-- `word_end_position` (same dead-branch remark as `next_word_position`). -/
def word_end_position (lines : List (List Char)) (line_idx col : Nat) :
    Nat × Nat :=
  match lines with
  | [] => (0, 0)
  | _ :: _ =>
    let li := Min.min line_idx (lines.length - 1)
    let r := wordEndLoop (lines.getD li []) (lines.drop (li + 1)) col
    (li + r.1, r.2)

/-- The line-walking loop of `prev_word_position`: `before` is the reversed
list of the lines before `cur`; the result is (upward line offset, column). -/
def prevLoop : List Char → List (List Char) → Nat → Nat × Nat
  | cur, before, col =>
    let len := cur.length
    let safe_col := if len = 0 then 0 else Min.min col len
    match find_prev_word_start cur safe_col with
    | some prev_col => (0, prev_col)
    | none =>
      match before with
      | [] => (0, 0)
      | prev :: before2 =>
        let r := prevLoop prev before2 prev.length
        (r.1 + 1, r.2)

/-- `prev_word_position` (same dead-branch remark as `next_word_position`). -/
def prev_word_position (lines : List (List Char)) (line_idx col : Nat) :
    Nat × Nat :=
  match lines with
  | [] => (0, 0)
  | _ :: _ =>
    let li := Min.min line_idx (lines.length - 1)
    let r := prevLoop (lines.getD li []) ((lines.take li).reverse) col
    (li - r.1, r.2)

/-! ## Month layout engine (`src/ui/month_view.rs`) -/

structure DayCell where
  date : Option Date
  is_selected : Bool
  is_today : Bool
  has_events : Bool
  is_current_month : Bool
deriving DecidableEq

def DayCell.new (date : Option Date) : DayCell :=
  { date := date, is_selected := false, is_today := false,
    has_events := false, is_current_month := true }

def DayCell.with_selected (c : DayCell) (selected : Bool) : DayCell :=
  { c with is_selected := selected }

def DayCell.with_today (c : DayCell) (today : Bool) : DayCell :=
  { c with is_today := today }

def DayCell.with_events (c : DayCell) (has_events : Bool) : DayCell :=
  { c with has_events := has_events }

def DayCell.with_current_month (c : DayCell) (current_month : Bool) : DayCell :=
  { c with is_current_month := current_month }

structure Week where
  days : List DayCell
deriving DecidableEq

structure MonthLayout where
  year : Int
  month : Nat
  weeks : List Week
deriving DecidableEq

/-- The leading-cell loop (`for i in 0..days_before`): cells of the previous
month, dates `first_day - days_before + i`, flagged not-current-month. -/
def leadingCells (first_day : Date) (days_before : Nat) : List DayCell :=
  (List.range days_before).map (fun i =>
    (DayCell.new (some (first_day.pred.subDays (days_before - i - 1)))).with_current_month
      false)

/-- The cell the month loop builds for the date `cur`. -/
def monthDayCell (state : AppState) (today cur : Date) : DayCell :=
  ((((DayCell.new (some cur)).with_selected
        (cur == state.selected_date)).with_today
      (cur == today)).with_events
    (!(state.get_events_for_date cur).isEmpty)).with_current_month true

/-- The `while current_date <= last_day` loop of `calculate_layout`.  `fuel`
is structural-recursion fuel: the caller passes `daysInMonth + 1`, one more
than the number of iterations, and once `cur` has passed `last_day` the
leftover fuel only re-tests the (now false) guard, as the Rust loop does. -/
def monthLoop (state : AppState) (today last_day : Date) :
    Nat → Date → List Week → List DayCell → List Week × List DayCell × Date
  | 0, cur, weeks, current_week => (weeks, current_week, cur)
  | fuel + 1, cur, weeks, current_week =>
    if cur.ble last_day then
      let cw := current_week ++ [monthDayCell state today cur]
      if numDaysFromMonday cur = 6 then
        monthLoop state today last_day fuel cur.succ (weeks ++ [⟨cw⟩]) []
      else
        monthLoop state today last_day fuel cur.succ weeks cw
    else (weeks, current_week, cur)

/-- The trailing `while current_week.days.len() < 7` padding loop; `fuel = 7`
suffices. -/
def padWeek : Nat → Date → List DayCell → List DayCell × Date
  | 0, cur, days => (days, cur)
  | fuel + 1, cur, days =>
    if days.length < 7 then
      padWeek fuel cur.succ
        (days ++ [(DayCell.new (some cur)).with_current_month false])
    else (days, cur)

/-- `month_view::calculate_layout` (`Local::now().date_naive()` passed as
`today`; `pred_opt`/`succ_opt` are total in the unbounded date model, so the
`else`-return-empty / `else break` arms they guard cannot fire and the
`and_then` chain collapses). -/
def calculate_layout (state : AppState) (today : Date) : MonthLayout :=
  let year := state.selected_date.year
  let month := state.selected_date.month
  match from_ymd_opt year month 1 with
  | none => ⟨year, month, []⟩
  | some first_day =>
    let next_month_first :=
      if month = 12 then from_ymd_opt (year + 1) 1 1
      else from_ymd_opt year (month + 1) 1
    match next_month_first with
    | none => ⟨year, month, []⟩
    | some nmf =>
      let last_day := nmf.pred
      let days_before := numDaysFromMonday first_day
      let r := monthLoop state today last_day (daysInMonth year month + 1)
        first_day [] (leadingCells first_day days_before)
      if r.2.1.isEmpty then ⟨year, month, r.1⟩
      else ⟨year, month, r.1 ++ [⟨(padWeek 7 r.2.2 r.2.1).1⟩]⟩

/-- All day cells of a month layout, in grid order. -/
def MonthLayout.cells (L : MonthLayout) : List DayCell :=
  L.weeks.flatMap Week.days

/-! ## Specification-side definitions

These are written from the specification text, not from the source, and exist
only to be compared with the source-derived definitions above. -/

/-- The three character classes of the spec: word characters (alphanumeric or
underscore), whitespace, and other punctuation. -/
inductive CharClass where
  | word | whitespace | other
deriving DecidableEq

def classOf (c : Char) : CharClass :=
  if c.isWhitespace then CharClass.whitespace
  else if is_word_char c then CharClass.word
  else CharClass.other

/-- Spec-side next-word motion on one line: "skip the remainder of the
current class run, then skip any whitespace run"; `none` when this exhausts
the line. -/
def nextWordSpecLine (line : List Char) (col : Nat) : Option Nat :=
  let run_end :=
    col + skipCount (fun c => classOf c == classOf (line.getD col ' ')) (line.drop col)
  let p := run_end + skipCount Char.isWhitespace (line.drop run_end)
  if p < line.length then some p else none

/-- First non-whitespace position in a list of lines: (line offset, column). -/
def firstNonWsInLines : List (List Char) → Option (Nat × Nat)
  | [] => none
  | l :: ls =>
    match l.findIdx? (fun c => !c.isWhitespace) with
    | some i => some (0, i)
    | none => (firstNonWsInLines ls).map (fun r => (r.1 + 1, r.2))

/-- Spec-side next-word motion ("Next-word motion: from the cursor, skip the
remainder of the current class run, then skip any whitespace run; if this
exhausts the current line, advance to the first non-whitespace character of a
following line; at the last line, motion clamps to the final character"),
written for comparison with `next_word_position`. -/
def nextWordSpec (lines : List (List Char)) (li col : Nat) : Nat × Nat :=
  match nextWordSpecLine (lines.getD li []) col with
  | some c => (li, c)
  | none =>
    match firstNonWsInLines (lines.drop (li + 1)) with
    | some r => (li + 1 + r.1, r.2)
    | none => (lines.length - 1, last_char_index (lines.getD (lines.length - 1) []))

/-- Strict reading order on (line, column) cursor positions. -/
def posLt (a b : Nat × Nat) : Prop :=
  a.1 < b.1 ∨ (a.1 = b.1 ∧ a.2 < b.2)

instance (a b : Nat × Nat) : Decidable (posLt a b) := by
  unfold posLt; infer_instance

/-- The `selected_event_index` invariant stated in the spec: the index is
below the number of events on the selected date, or `0` when there are
none. -/
def eventIndexInvariant (s : AppState) : Prop :=
  s.selected_event_index < (s.get_events_for_date s.selected_date).length ∨
    ((s.get_events_for_date s.selected_date).length = 0 ∧
      s.selected_event_index = 0)

instance (s : AppState) : Decidable (eventIndexInvariant s) := by
  unfold eventIndexInvariant; infer_instance

/-! ## Concrete sample data used by scenario theorems and witnesses -/

/-- A one-hour event on a given date, used to populate sample states. -/
def sampleEvent (id : String) (d : Date) (hour : Nat) : Event where
  id := id
  title := "Event"
  description := none
  location := none
  start := ⟨d, hour * 60⟩
  stop := ⟨d, hour * 60 + 60⟩
  all_day := false

/-- A session opened on 2025-01-15. -/
def sampleState : AppState := AppState.new ⟨2025, 1, 15⟩

/-- A fresh form (created at 09:xx on 2025-01-15). -/
def sampleForm : EventForm := EventForm.new 9 ⟨2025, 1, 15⟩ ""

/-- `sampleForm` after typing "1430" into the time buffer. -/
def sampleForm1430 : EventForm :=
  { sampleForm with time_input_buffer := "1430".data }

/-- `sampleForm` after typing "99999" into the duration buffer. -/
def sampleForm99999 : EventForm :=
  { sampleForm with duration_input_buffer := "99999".data }

/-- The all-day variant of `sampleForm99999`. -/
def sampleFormAllDay99999 : EventForm :=
  { sampleForm with duration_input_buffer := "99999".data, all_day := true }

/-- `sampleState` with two events on 2025-01-15, selection moved down once
(`j`), then moved to the next month (`}`): the event-selection index stays
`1` while the new date has no events. -/
def strandedState : AppState :=
  handle_key ⟨2025, 1, 15⟩ 9 (KeyCode.Char '}')
    (handle_key ⟨2025, 1, 15⟩ 9 (KeyCode.Char 'j')
      ((sampleState.add_event (sampleEvent "e1" ⟨2025, 1, 15⟩ 9)).add_event
        (sampleEvent "e2" ⟨2025, 1, 15⟩ 14)))

/-- The state one step before `strandedState`. -/
def preStrandedState : AppState :=
  handle_key ⟨2025, 1, 15⟩ 9 (KeyCode.Char 'j')
    ((sampleState.add_event (sampleEvent "e1" ⟨2025, 1, 15⟩ 9)).add_event
      (sampleEvent "e2" ⟨2025, 1, 15⟩ 14))

/-- The time buffer with all `:` characters removed, as in
`EventForm::parse_time_input`. -/
def strippedTime (f : EventForm) : List Char :=
  f.time_input_buffer.filter (fun c => c ≠ ':')

/-! ## Helper lemmas -/

theorem ite_clamp_hour (a : Nat) : (if 24 ≤ a then 23 else a) = Min.min a 23 := by
  rw [Nat.min_def]
  rcases Nat.lt_or_ge a 24 with h | h
  · rw [if_neg (by omega), if_pos (by omega)]
  · rw [if_pos h, if_neg (by omega)]

theorem ite_clamp_minute (a : Nat) : (if 60 ≤ a then 59 else a) = Min.min a 59 := by
  rw [Nat.min_def]
  rcases Nat.lt_or_ge a 60 with h | h
  · rw [if_neg (by omega), if_pos (by omega)]
  · rw [if_pos h, if_neg (by omega)]

theorem Date.ble_of_not_ble {a b : Date} (h : a.ble b = false) : b.ble a = true := by
  simp only [Date.ble, Bool.or_eq_true, Bool.or_eq_false_iff, Bool.and_eq_true,
    Bool.and_eq_false_iff, decide_eq_true_eq, decide_eq_false_iff_not,
    beq_iff_eq, beq_eq_false_iff_ne, ne_eq] at h ⊢
  omega

/-! ## C1: visual selection range -/

/-- C1: for every anchor and selected date, when `visual_selection_start` is
`Some(anchor)`, `get_visual_selection_range` returns
`Some((min(anchor, selected_date), max(anchor, selected_date)))`, a pair with
start ≤ end; it returns `None` exactly when `visual_selection_start` is
`None`. -/
theorem visual_selection_range_min_max (s : AppState) :
    (∀ a, s.visual_selection_start = some a →
      s.get_visual_selection_range =
          some (Date.min a s.selected_date, Date.max a s.selected_date) ∧
        (Date.min a s.selected_date).ble (Date.max a s.selected_date) = true) ∧
    (s.visual_selection_start = none → s.get_visual_selection_range = none) := by
  constructor
  · intro a ha
    unfold AppState.get_visual_selection_range Date.min Date.max
    rw [ha, Option.map_some']
    by_cases h : a.ble s.selected_date = true
    · simp only [if_pos h]
      exact ⟨trivial, h⟩
    · simp only [if_neg h]
      have h2 : a.ble s.selected_date = false := by simpa using h
      exact ⟨trivial, Date.ble_of_not_ble h2⟩
  · intro ha
    unfold AppState.get_visual_selection_range
    rw [ha]
    rfl

/-- C1 witness: the theorem applied to a session on 2025-01-15 with a visual
anchor on 2025-01-10. -/
theorem visual_selection_range_min_max_witness :
    ({ sampleState with visual_selection_start := some ⟨2025, 1, 10⟩ } :
        AppState).get_visual_selection_range =
      some (Date.min ⟨2025, 1, 10⟩ ⟨2025, 1, 15⟩,
        Date.max ⟨2025, 1, 10⟩ ⟨2025, 1, 15⟩) :=
  ((visual_selection_range_min_max _).1 ⟨2025, 1, 10⟩ rfl).1

/-! ## C7: previous-day and previous-month scenario -/

/-- C7 counterexample: pressing previous-month (`{`) from 2025-01-15 yields
2024-12-15, not the 2025-12-15 the claim states. -/
theorem prev_month_from_january_counterexample :
    (handle_key ⟨2025, 1, 15⟩ 9 (KeyCode.Char '{') sampleState).selected_date =
        ⟨2024, 12, 15⟩ ∧
      (⟨2024, 12, 15⟩ : Date) ≠ ⟨2025, 12, 15⟩ := by
  constructor
  · decide
  · decide

/-! ## C5 and C6: event form buffer parsing -/

/-- C5: parsing time buffer "1430" yields hour 14, minute 30 and canonical
buffer "14:30"; in general (after stripping `:`) a 3–4 digit buffer parses as
`hour = value / 100`, `minute = value % 100` clamped to 23 / 59, a buffer of
length ≤ 2 parses hour-only with minute 0, and any other length (or a
non-numeric buffer) leaves the form unchanged with no error. -/
theorem parse_time_input_spec :
    (∀ f : EventForm, f.time_input_buffer = "1430".data →
      f.parse_time_input.start_hour = 14 ∧
      f.parse_time_input.start_minute = 30 ∧
      f.parse_time_input.time_input_buffer = "14:30".data) ∧
    (∀ f v, parseU32 (strippedTime f) = some v →
      ((strippedTime f).length = 3 ∨ (strippedTime f).length = 4) →
      f.parse_time_input.start_hour = Min.min (v / 100) 23 ∧
      f.parse_time_input.start_minute = Min.min (v % 100) 59 ∧
      f.parse_time_input.time_input_buffer =
        formatHM (Min.min (v / 100) 23) (Min.min (v % 100) 59)) ∧
    (∀ f v, parseU32 (strippedTime f) = some v → (strippedTime f).length ≤ 2 →
      f.parse_time_input.start_hour = Min.min v 23 ∧
      f.parse_time_input.start_minute = 0 ∧
      f.parse_time_input.time_input_buffer = formatHM (Min.min v 23) 0) ∧
    (∀ f, parseU32 (strippedTime f) = none → f.parse_time_input = f) ∧
    (∀ f, 5 ≤ (strippedTime f).length → f.parse_time_input = f) := by
  refine ⟨?_, ?_, ?_, ?_, ?_⟩
  · intro f hbuf
    have key : f.parse_time_input =
        { f with start_hour := 14, start_minute := 30,
                 time_input_buffer := "14:30".data } := by
      unfold EventForm.parse_time_input
      rw [hbuf]
      rfl
    rw [key]
    exact ⟨rfl, rfl, rfl⟩
  · intro f v hp hlen
    unfold strippedTime at hp hlen
    simp only [EventForm.parse_time_input, hp, if_pos hlen]
    exact ⟨ite_clamp_hour _, ite_clamp_minute _,
      by rw [ite_clamp_hour, ite_clamp_minute]⟩
  · intro f v hp hlen
    unfold strippedTime at hp hlen
    simp only [EventForm.parse_time_input, hp, if_neg (show
      ¬((f.time_input_buffer.filter (fun c => c ≠ ':')).length = 3 ∨
        (f.time_input_buffer.filter (fun c => c ≠ ':')).length = 4) by omega),
      if_pos hlen]
    refine ⟨?_, ?_, ?_⟩ <;> first | rfl | trivial
  · intro f hp
    unfold strippedTime at hp
    simp only [EventForm.parse_time_input, hp]
  · intro f hlen
    unfold strippedTime at hlen
    cases hcase : parseU32 (f.time_input_buffer.filter (fun c => c ≠ ':')) with
    | none => simp only [EventForm.parse_time_input, hcase]
    | some v =>
      simp only [EventForm.parse_time_input, hcase, if_neg (show
        ¬((f.time_input_buffer.filter (fun c => c ≠ ':')).length = 3 ∨
          (f.time_input_buffer.filter (fun c => c ≠ ':')).length = 4) by omega),
        if_neg (show
          ¬(f.time_input_buffer.filter (fun c => c ≠ ':')).length ≤ 2 by omega)]

/-- C5 witness: the scenario clause applied to a fresh form whose time buffer
holds "1430". -/
theorem parse_time_input_spec_witness :
    sampleForm1430.parse_time_input.start_hour = 14 ∧
    sampleForm1430.parse_time_input.start_minute = 30 ∧
    sampleForm1430.parse_time_input.time_input_buffer = "14:30".data :=
  parse_time_input_spec.1 sampleForm1430 rfl

/-- C6: the duration buffer parses as an integer clamped to [1, 365] days
(converted to minutes) when `all_day`, else to [1, 10080] minutes; a
non-numeric buffer leaves the form unchanged; "99999" yields 10080 for a
timed event and 365 days for an all-day event. -/
theorem parse_duration_input_spec :
    (∀ f : EventForm, f.duration_input_buffer = "99999".data →
      (f.all_day = false → f.parse_duration_input.duration_minutes = 10080) ∧
      (f.all_day = true →
        f.parse_duration_input.duration_minutes = 365 * 24 * 60)) ∧
    (∀ (f : EventForm) v, parseU32 f.duration_input_buffer = some v →
      (f.all_day = true →
        f.parse_duration_input.duration_minutes = clampNat v 1 365 * 24 * 60) ∧
      (f.all_day = false →
        f.parse_duration_input.duration_minutes = clampNat v 1 10080)) ∧
    (∀ f : EventForm, parseU32 f.duration_input_buffer = none →
      f.parse_duration_input = f) := by
  have hAll : ∀ (f : EventForm) v, parseU32 f.duration_input_buffer = some v →
      (f.all_day = true →
        f.parse_duration_input.duration_minutes = clampNat v 1 365 * 24 * 60) ∧
      (f.all_day = false →
        f.parse_duration_input.duration_minutes = clampNat v 1 10080) := by
    intro f v hp
    constructor
    · intro hd
      simp only [EventForm.parse_duration_input, hp, if_pos hd]
    · intro hd
      simp only [EventForm.parse_duration_input, hp,
        if_neg (show ¬f.all_day = true by simp [hd])]
  refine ⟨?_, hAll, ?_⟩
  · intro f hbuf
    have hp : parseU32 f.duration_input_buffer = some 99999 := by
      rw [hbuf]; decide
    constructor
    · intro hd
      rw [(hAll f 99999 hp).2 hd]
      decide
    · intro hd
      rw [(hAll f 99999 hp).1 hd]
      decide
  · intro f hp
    simp only [EventForm.parse_duration_input, hp]

/-- C6 witness: the scenario clause applied to a timed and to an all-day form
whose duration buffer holds "99999". -/
theorem parse_duration_input_spec_witness :
    sampleForm99999.parse_duration_input.duration_minutes = 10080 ∧
    sampleFormAllDay99999.parse_duration_input.duration_minutes =
      365 * 24 * 60 :=
  ⟨(parse_duration_input_spec.1 sampleForm99999 rfl).1 rfl,
   (parse_duration_input_spec.1 sampleFormAllDay99999 rfl).2 rfl⟩

/-! ## Navigation helper lemmas -/

theorem skipCount_le (p : Char → Bool) (l : List Char) :
    skipCount p l ≤ l.length := by
  induction l with
  | nil => simp [skipCount]
  | cons c cs ih =>
    simp only [skipCount, List.length_cons]
    split
    · omega
    · omega

theorem skipCount_cons_pos {p : Char → Bool} {c : Char} (l : List Char)
    (h : p c = true) : 1 ≤ skipCount p (c :: l) := by
  simp [skipCount, h]

theorem skipCount_singleton {p : Char → Bool} {c : Char} (h : p c = true) :
    skipCount p [c] = 1 := by
  simp [skipCount, h]

theorem drop_getD_cons {l : List Char} {i : Nat} (h : i < l.length) :
    l.drop i = l.getD i ' ' :: l.drop (i + 1) := by
  rw [List.getD_eq_getElem l ' ' h]
  exact List.drop_eq_getElem_cons h

theorem find_next_word_start_bounds {text : List Char} {col c : Nat}
    (hcol : col < text.length)
    (h : find_next_word_start text col = some c) :
    col < c ∧ c < text.length := by
  have hne : ¬(text.isEmpty = true) := by
    cases text with
    | nil => simp at hcol
    | cons a l => simp
  simp only [find_next_word_start] at h
  rw [if_neg hne, Nat.min_eq_left (by omega : col ≤ text.length - 1)] at h
  have hdrop := drop_getD_cons hcol
  by_cases h1 : (text.getD col ' ').isWhitespace = true
  · rw [if_pos h1] at h
    have hskip : 1 ≤ skipCount Char.isWhitespace (text.drop col) := by
      rw [hdrop]; exact skipCount_cons_pos _ h1
    split at h
    · rename_i hlt
      cases h
      omega
    · cases h
  · rw [if_neg h1] at h
    by_cases h2 : is_word_char (text.getD col ' ') = true
    · rw [if_pos h2] at h
      have hskip : 1 ≤ skipCount is_word_char (text.drop col) := by
        rw [hdrop]; exact skipCount_cons_pos _ h2
      split at h
      · rename_i hlt
        cases h
        omega
      · cases h
    · rw [if_neg h2] at h
      have hp : (!(text.getD col ' ').isWhitespace &&
          !is_word_char (text.getD col ' ')) = true := by
        revert h1 h2
        cases (text.getD col ' ').isWhitespace <;>
          cases is_word_char (text.getD col ' ') <;> simp
      have hskip : 1 ≤ skipCount
          (fun ch => !ch.isWhitespace && !is_word_char ch) (text.drop col) := by
        rw [hdrop]
        exact skipCount_cons_pos _ hp
      split at h
      · rename_i hlt
        cases h
        omega
      · cases h

theorem nextLoop_fst_le : ∀ (rest : List (List Char)) (cur : List Char)
    (col : Nat), (nextLoop cur rest col).1 ≤ rest.length := by
  intro rest
  induction rest with
  | nil =>
    intro cur col
    simp only [nextLoop]
    split
    · simp
    · split
      · simp
      · simp
  | cons next rest2 ih =>
    intro cur col
    simp only [nextLoop]
    split
    · split
      · simp
      · simp only [List.length_cons]
        have := ih next 0
        omega
    · split
      · simp
      · split
        · simp
        · simp only [List.length_cons]
          have := ih next 0
          omega

theorem wordEndLoop_fst_le : ∀ (rest : List (List Char)) (cur : List Char)
    (col : Nat), (wordEndLoop cur rest col).1 ≤ rest.length := by
  intro rest
  induction rest with
  | nil =>
    intro cur col
    simp only [wordEndLoop]
    split
    · simp
    · split
      · simp
      · simp
  | cons next rest2 ih =>
    intro cur col
    simp only [wordEndLoop]
    split
    · simp only [List.length_cons]
      have := ih next 0
      omega
    · split
      · simp
      · simp only [List.length_cons]
        have := ih next 0
        omega

theorem nextLoop_at_final (cur : List Char) (h : cur ≠ []) :
    nextLoop cur [] (cur.length - 1) = (0, cur.length - 1) := by
  have hlen : 0 < cur.length := List.length_pos.mpr h
  have hfind : find_next_word_start cur (cur.length - 1) = none := by
    have hne : ¬(cur.isEmpty = true) := by
      cases cur with
      | nil => exact absurd rfl h
      | cons a l => simp
    have hdrop1 : cur.drop (cur.length - 1) =
        [cur.getD (cur.length - 1) ' '] := by
      rw [drop_getD_cons (by omega), show cur.length - 1 + 1 = cur.length from
        by omega, List.drop_length]
    simp only [find_next_word_start]
    rw [if_neg hne, Nat.min_self]
    by_cases h1 : (cur.getD (cur.length - 1) ' ').isWhitespace = true
    · rw [if_pos h1, hdrop1, skipCount_singleton h1,
        show cur.length - 1 + 1 = cur.length from by omega, List.drop_length]
      simp [skipCount]
    · rw [if_neg h1]
      by_cases h2 : is_word_char (cur.getD (cur.length - 1) ' ') = true
      · rw [if_pos h2, hdrop1, skipCount_singleton h2,
          show cur.length - 1 + 1 = cur.length from by omega, List.drop_length]
        simp [skipCount]
      · have hp : (!(cur.getD (cur.length - 1) ' ').isWhitespace &&
            !is_word_char (cur.getD (cur.length - 1) ' ')) = true := by
          revert h1 h2
          cases (cur.getD (cur.length - 1) ' ').isWhitespace <;>
            cases is_word_char (cur.getD (cur.length - 1) ' ') <;> simp
        rw [if_neg h2, hdrop1, skipCount_singleton hp,
          show cur.length - 1 + 1 = cur.length from by omega, List.drop_length]
        simp [skipCount]
  simp only [nextLoop]
  rw [if_neg (by omega), hfind]
  rfl

theorem nextLoop_progress (rest : List (List Char)) (cur : List Char)
    (col : Nat) (hcol : col < cur.length)
    (hne : ¬(rest = [] ∧ col = cur.length - 1)) :
    posLt (0, col) (nextLoop cur rest col) := by
  cases rest with
  | nil =>
    simp only [nextLoop]
    rw [if_neg (by omega)]
    cases hfind : find_next_word_start cur col with
    | some c =>
      simp only [hfind]
      exact Or.inr ⟨rfl, (find_next_word_start_bounds hcol hfind).1⟩
    | none =>
      simp only [hfind]
      have hc2 : col ≠ cur.length - 1 := fun e => hne ⟨rfl, e⟩
      exact Or.inr ⟨rfl, by unfold last_char_index; omega⟩
  | cons next rest2 =>
    simp only [nextLoop]
    rw [if_neg (by omega)]
    cases hfind : find_next_word_start cur col with
    | some c =>
      simp only [hfind]
      exact Or.inr ⟨rfl, (find_next_word_start_bounds hcol hfind).1⟩
    | none =>
      simp only [hfind]
      cases hidx : next.findIdx? (fun ch => !ch.isWhitespace) with
      | some i =>
        simp only [hidx]
        exact Or.inl (by omega)
      | none =>
        simp only [hidx]
        exact Or.inl (by omega)

theorem next_word_position_unfold (lines : List (List Char)) (li col : Nat)
    (h : li < lines.length) :
    next_word_position lines li col =
      (li + (nextLoop (lines.getD li []) (lines.drop (li + 1)) col).1,
        (nextLoop (lines.getD li []) (lines.drop (li + 1)) col).2) := by
  cases lines with
  | nil => simp at h
  | cons a l =>
    simp only [next_word_position]
    rw [Nat.min_eq_left (by simp only [List.length_cons] at h ⊢; omega)]

/-! ## Calendar lemmas for the month layout -/

theorem rataDie_day (y : Int) (m d : Nat) :
    rataDie ⟨y, m, d + 1⟩ = rataDie ⟨y, m, d⟩ + 1 := by
  simp only [rataDie]
  push_cast
  ring

theorem numDaysFromMonday_lt (d : Date) : numDaysFromMonday d < 7 := by
  unfold numDaysFromMonday
  have h1 : 0 ≤ (rataDie d + 3) % 7 := Int.emod_nonneg _ (by norm_num)
  have h2 : (rataDie d + 3) % 7 < 7 := Int.emod_lt_of_pos _ (by norm_num)
  omega

theorem numDaysFromMonday_succ_day (y : Int) (m d : Nat) :
    numDaysFromMonday ⟨y, m, d + 1⟩ = (numDaysFromMonday ⟨y, m, d⟩ + 1) % 7 := by
  unfold numDaysFromMonday
  rw [rataDie_day]
  omega

theorem daysInMonth_ge_28 {y : Int} {m : Nat} (h1 : 1 ≤ m) (h2 : m ≤ 12) :
    28 ≤ daysInMonth y m := by
  unfold daysInMonth
  interval_cases m <;> simp <;> split <;> omega

theorem from_ymd_first {y : Int} {m : Nat} (h1 : 1 ≤ m) (h2 : m ≤ 12) :
    from_ymd_opt y m 1 = some ⟨y, m, 1⟩ := by
  unfold from_ymd_opt
  have h3 := daysInMonth_ge_28 (y := y) h1 h2
  rw [if_pos ⟨h1, h2, le_refl 1, by omega⟩]

theorem pred_month_first {y : Int} {m : Nat} (h1 : 1 ≤ m) :
    Date.pred ⟨y, m + 1, 1⟩ = ⟨y, m, daysInMonth y m⟩ := by
  simp only [Date.pred]
  rw [if_neg (by simp), if_pos (by simp; omega)]
  simp

theorem pred_year_first (y : Int) : Date.pred ⟨y + 1, 1, 1⟩ = ⟨y, 12, 31⟩ := by
  simp only [Date.pred]
  rw [if_neg (by simp), if_neg (by simp)]
  simp

theorem ble_same_month {y : Int} {m d N : Nat} (h : d ≤ N) :
    (⟨y, m, d⟩ : Date).ble ⟨y, m, N⟩ = true := by
  simp [Date.ble, h]

theorem ble_eq_false_of {a b : Date}
    (h : ¬(a.year < b.year ∨
      (a.year = b.year ∧ (a.month < b.month ∨
        (a.month = b.month ∧ a.day ≤ b.day))))) :
    a.ble b = false := by
  cases hb : a.ble b with
  | false => rfl
  | true =>
    exfalso
    apply h
    simpa only [Date.ble, Bool.or_eq_true, Bool.and_eq_true, decide_eq_true_eq,
      beq_iff_eq] using hb

theorem not_ble_next_month {y : Int} {m N : Nat} :
    (⟨y, m + 1, 1⟩ : Date).ble ⟨y, m, N⟩ = false := by
  apply ble_eq_false_of
  intro hcon
  simp only at hcon
  omega

theorem not_ble_next_year {y : Int} {m N : Nat} :
    (⟨y + 1, 1, 1⟩ : Date).ble ⟨y, m, N⟩ = false := by
  apply ble_eq_false_of
  intro hcon
  simp only at hcon
  omega

theorem succ_day {y : Int} {m d : Nat} (h : d < daysInMonth y m) :
    Date.succ ⟨y, m, d⟩ = ⟨y, m, d + 1⟩ := by
  simp only [Date.succ]
  rw [if_pos h]

theorem succ_last (y : Int) (m : Nat) :
    Date.succ ⟨y, m, daysInMonth y m⟩ =
      if m < 12 then ⟨y, m + 1, 1⟩ else ⟨y + 1, 1, 1⟩ := by
  simp only [Date.succ]
  rw [if_neg (lt_irrefl _)]

theorem not_ble_succ_last {y : Int} {m : Nat} (h2 : m ≤ 12) :
    (Date.succ ⟨y, m, daysInMonth y m⟩).ble ⟨y, m, daysInMonth y m⟩ = false := by
  rw [succ_last]
  by_cases h : m < 12
  · rw [if_pos h]
    exact not_ble_next_month
  · rw [if_neg h]
    have hm : m = 12 := by omega
    subst hm
    exact not_ble_next_year

theorem leadingCells_length (first_day : Date) (days_before : Nat) :
    (leadingCells first_day days_before).length = days_before := by
  simp [leadingCells]

theorem leadingCells_flags (first_day : Date) (days_before : Nat) :
    ∀ c ∈ leadingCells first_day days_before,
      c.is_current_month = false ∧ c.is_selected = false := by
  intro c hc
  simp only [leadingCells, List.mem_map] at hc
  obtain ⟨i, -, rfl⟩ := hc
  exact ⟨rfl, rfl⟩

theorem padWeek_spec : ∀ (fuel : Nat) (cur : Date) (days : List DayCell),
    days.length ≤ 7 → 7 ≤ days.length + fuel →
    ∃ pad, (padWeek fuel cur days).1 = days ++ pad ∧
      (days ++ pad).length = 7 ∧
      ∀ c ∈ pad, c.is_current_month = false ∧ c.is_selected = false := by
  intro fuel
  induction fuel with
  | zero =>
    intro cur days h1 h2
    refine ⟨[], by simp [padWeek], by simp; omega, by simp⟩
  | succ fuel ih =>
    intro cur days h1 h2
    by_cases h : days.length < 7
    · simp only [padWeek]
      rw [if_pos h]
      obtain ⟨pad, heq, hlen, hflags⟩ := ih cur.succ
        (days ++ [(DayCell.new (some cur)).with_current_month false])
        (by simp; omega) (by simp; omega)
      refine ⟨(DayCell.new (some cur)).with_current_month false :: pad, ?_, ?_, ?_⟩
      · rw [heq, List.append_assoc]
        rfl
      · simp only [List.length_append, List.length_cons, List.length_nil]
          at hlen ⊢
        omega
      · intro c hc
        rcases List.mem_cons.mp hc with rfl | hc2
        · exact ⟨rfl, rfl⟩
        · exact hflags c hc2
    · simp only [padWeek]
      rw [if_neg h]
      exact ⟨[], by simp, by simp; omega, by simp⟩

theorem weeks_cells_length : ∀ ws : List Week,
    (∀ w ∈ ws, w.days.length = 7) →
    (ws.flatMap Week.days).length = 7 * ws.length := by
  intro ws
  induction ws with
  | nil => intro _; rfl
  | cons w ws ih =>
    intro h
    simp only [List.flatMap_cons, List.length_append, List.length_cons]
    rw [h w (List.mem_cons_self _ _), ih fun x hx => h x (List.mem_cons_of_mem _ hx)]
    ring

theorem range'_cons (a n : Nat) :
    List.range' a (n + 1) = a :: List.range' (a + 1) n := rfl

/-- The invariant of the month loop: starting at day `d` of the month with a
partial week whose length equals the weekday offset of day `d`, the loop
produces only 7-cell weeks, ends with a partial week whose length is the
weekday offset just past the month's last day, and appends exactly the cells
of days `d … daysInMonth` to the flattened grid. -/
theorem monthLoop_spec (state : AppState) (today : Date) (y : Int) (m : Nat)
    (hm2 : m ≤ 12) :
    ∀ (k d : Nat) (weeks : List Week) (cw : List DayCell),
      1 ≤ d → d ≤ daysInMonth y m → d + k = daysInMonth y m + 2 →
      cw.length = numDaysFromMonday ⟨y, m, d⟩ →
      (∀ w ∈ weeks, w.days.length = 7) →
      (∀ w ∈ (monthLoop state today ⟨y, m, daysInMonth y m⟩ k ⟨y, m, d⟩
          weeks cw).1, w.days.length = 7) ∧
      (monthLoop state today ⟨y, m, daysInMonth y m⟩ k ⟨y, m, d⟩
          weeks cw).2.1.length =
        numDaysFromMonday ⟨y, m, daysInMonth y m + 1⟩ ∧
      ((monthLoop state today ⟨y, m, daysInMonth y m⟩ k ⟨y, m, d⟩
          weeks cw).1.flatMap Week.days ++
        (monthLoop state today ⟨y, m, daysInMonth y m⟩ k ⟨y, m, d⟩
          weeks cw).2.1 =
        weeks.flatMap Week.days ++ cw ++
          (List.range' d (daysInMonth y m + 1 - d)).map
            (fun j => monthDayCell state today ⟨y, m, j⟩)) := by
  intro k
  induction k with
  | zero =>
    intro d weeks cw h1 h2 h3 hcw hweeks
    omega
  | succ fuel ih =>
    intro d weeks cw h1 h2 h3 hcw hweeks
    have hlt7 := numDaysFromMonday_lt (⟨y, m, d⟩ : Date)
    simp only [monthLoop]
    rw [if_pos (ble_same_month h2)]
    by_cases hsun : numDaysFromMonday ⟨y, m, d⟩ = 6
    · rw [if_pos hsun]
      have hweeks2 : ∀ w ∈ weeks ++
          [Week.mk (cw ++ [monthDayCell state today ⟨y, m, d⟩])],
          w.days.length = 7 := by
        intro w hw
        rcases List.mem_append.mp hw with h | h
        · exact hweeks w h
        · simp only [List.mem_singleton] at h
          subst h
          simp only [List.length_append, List.length_cons, List.length_nil]
          omega
      by_cases hdN : d < daysInMonth y m
      · rw [succ_day hdN]
        obtain ⟨ihw, ihcw, ihcells⟩ := ih (d + 1)
          (weeks ++ [Week.mk (cw ++ [monthDayCell state today ⟨y, m, d⟩])]) []
          (by omega) (by omega) (by omega)
          (by simp [numDaysFromMonday_succ_day, hsun]) hweeks2
        refine ⟨ihw, ihcw, ?_⟩
        rw [ihcells]
        rw [show daysInMonth y m + 1 - d = (daysInMonth y m - d) + 1 from
          by omega, range'_cons,
          show daysInMonth y m + 1 - (d + 1) = daysInMonth y m - d from
          by omega]
        simp [List.append_assoc]
      · have hdN2 : d = daysInMonth y m := by omega
        subst hdN2
        have hfuel : fuel = 1 := by omega
        subst hfuel
        simp only [monthLoop]
        rw [if_neg (by rw [not_ble_succ_last hm2]; exact Bool.false_ne_true)]
        refine ⟨hweeks2, ?_, ?_⟩
        · simp [numDaysFromMonday_succ_day, hsun]
        · rw [show daysInMonth y m + 1 - daysInMonth y m = 1 from by omega]
          simp [List.append_assoc]
    · rw [if_neg hsun]
      by_cases hdN : d < daysInMonth y m
      · rw [succ_day hdN]
        obtain ⟨ihw, ihcw, ihcells⟩ := ih (d + 1) weeks
          (cw ++ [monthDayCell state today ⟨y, m, d⟩])
          (by omega) (by omega) (by omega)
          (by
            rw [numDaysFromMonday_succ_day]
            simp only [List.length_append, List.length_cons, List.length_nil]
            omega)
          hweeks
        refine ⟨ihw, ihcw, ?_⟩
        rw [ihcells]
        rw [show daysInMonth y m + 1 - d = (daysInMonth y m - d) + 1 from
          by omega, range'_cons,
          show daysInMonth y m + 1 - (d + 1) = daysInMonth y m - d from
          by omega]
        simp [List.append_assoc]
      · have hdN2 : d = daysInMonth y m := by omega
        subst hdN2
        have hfuel : fuel = 1 := by omega
        subst hfuel
        simp only [monthLoop]
        rw [if_neg (by rw [not_ble_succ_last hm2]; exact Bool.false_ne_true)]
        refine ⟨hweeks, ?_, ?_⟩
        · rw [numDaysFromMonday_succ_day]
          simp only [List.length_append, List.length_cons, List.length_nil]
          omega
        · rw [show daysInMonth y m + 1 - daysInMonth y m = 1 from by omega]
          simp [List.append_assoc]

theorem countP_selected_zero {l : List DayCell}
    (h : ∀ c ∈ l, c.is_current_month = false ∧ c.is_selected = false) :
    l.countP (fun c => c.is_selected) = 0 := by
  rw [List.countP_eq_zero]
  intro c hc
  simp [(h c hc).2]

theorem countP_range'_eq_one : ∀ (n a t : Nat), a ≤ t → t < a + n →
    (List.range' a n).countP (fun j => j == t) = 1 := by
  intro n
  induction n with
  | zero =>
    intro a t h1 h2
    omega
  | succ n ih =>
    intro a t h1 h2
    rw [range'_cons, List.countP_cons]
    by_cases h : a = t
    · subst h
      have hz : (List.range' (a + 1) n).countP (fun j => j == a) = 0 := by
        rw [List.countP_eq_zero]
        intro j hj
        have hmem := List.mem_range'_1.mp hj
        simp only [beq_iff_eq, decide_eq_true_eq]
        omega
      rw [hz]
      simp
    · rw [ih (a + 1) t (by omega) (by omega)]
      simp [h]

/-- The cell built for day `j` of the selected month is selected exactly when
`j` is the selected day. -/
theorem monthDayCell_selected_eq (state : AppState) (today : Date) (j : Nat) :
    (monthDayCell state today ⟨state.selected_date.year,
        state.selected_date.month, j⟩).is_selected =
      (j == state.selected_date.day) := by
  show ((⟨state.selected_date.year, state.selected_date.month, j⟩ : Date) ==
      state.selected_date) = (j == state.selected_date.day)
  rw [Bool.eq_iff_iff]
  simp only [beq_iff_eq]
  constructor
  · intro e
    exact congrArg Date.day e
  · intro e
    subst e
    rfl

theorem count_selected_in_month (state : AppState) (today : Date)
    (hd1 : 1 ≤ state.selected_date.day)
    (hd2 : state.selected_date.day ≤
      daysInMonth state.selected_date.year state.selected_date.month) :
    ((List.range' 1 (daysInMonth state.selected_date.year
        state.selected_date.month)).map
      (fun j => monthDayCell state today
        ⟨state.selected_date.year, state.selected_date.month, j⟩)).countP
      (fun c => c.is_selected) = 1 := by
  rw [List.countP_map]
  rw [List.countP_congr (fun j hj => by
    simp only [Function.comp_apply]
    rw [monthDayCell_selected_eq])]
  exact countP_range'_eq_one _ 1 state.selected_date.day hd1 (by omega)

/-- `calculate_layout` under a valid selected date: the weeks are all 7 cells
long and flatten to leading cells, the month's day cells in order, and
trailing cells flagged outside the month. -/
theorem calculate_layout_key (state : AppState) (today : Date)
    (hv : state.selected_date.Valid) :
    ∃ (weeks : List Week) (trail : List DayCell),
      calculate_layout state today =
        ⟨state.selected_date.year, state.selected_date.month, weeks⟩ ∧
      (∀ w ∈ weeks, w.days.length = 7) ∧
      weeks.flatMap Week.days =
        leadingCells ⟨state.selected_date.year, state.selected_date.month, 1⟩
            (numDaysFromMonday ⟨state.selected_date.year,
              state.selected_date.month, 1⟩) ++
          (List.range' 1 (daysInMonth state.selected_date.year
              state.selected_date.month)).map
            (fun j => monthDayCell state today
              ⟨state.selected_date.year, state.selected_date.month, j⟩) ++
          trail ∧
      (∀ c ∈ trail, c.is_current_month = false ∧ c.is_selected = false) := by
  obtain ⟨hm1, hm2, hd1, hd2⟩ := hv
  have hN28 := daysInMonth_ge_28 (y := state.selected_date.year) hm1 hm2
  have hfirst := from_ymd_first (y := state.selected_date.year) hm1 hm2
  have hcalc : calculate_layout state today =
      (if ((monthLoop state today
          ⟨state.selected_date.year, state.selected_date.month,
            daysInMonth state.selected_date.year state.selected_date.month⟩
          (daysInMonth state.selected_date.year state.selected_date.month + 1)
          ⟨state.selected_date.year, state.selected_date.month, 1⟩ []
          (leadingCells
            ⟨state.selected_date.year, state.selected_date.month, 1⟩
            (numDaysFromMonday
              ⟨state.selected_date.year, state.selected_date.month,
                1⟩))).2.1.isEmpty = true) then
        ⟨state.selected_date.year, state.selected_date.month,
          (monthLoop state today
            ⟨state.selected_date.year, state.selected_date.month,
              daysInMonth state.selected_date.year state.selected_date.month⟩
            (daysInMonth state.selected_date.year state.selected_date.month + 1)
            ⟨state.selected_date.year, state.selected_date.month, 1⟩ []
            (leadingCells
              ⟨state.selected_date.year, state.selected_date.month, 1⟩
              (numDaysFromMonday
                ⟨state.selected_date.year, state.selected_date.month,
                  1⟩))).1⟩
      else
        ⟨state.selected_date.year, state.selected_date.month,
          (monthLoop state today
            ⟨state.selected_date.year, state.selected_date.month,
              daysInMonth state.selected_date.year state.selected_date.month⟩
            (daysInMonth state.selected_date.year state.selected_date.month + 1)
            ⟨state.selected_date.year, state.selected_date.month, 1⟩ []
            (leadingCells
              ⟨state.selected_date.year, state.selected_date.month, 1⟩
              (numDaysFromMonday
                ⟨state.selected_date.year, state.selected_date.month,
                  1⟩))).1 ++
            [Week.mk (padWeek 7
              (monthLoop state today
                ⟨state.selected_date.year, state.selected_date.month,
                  daysInMonth state.selected_date.year
                    state.selected_date.month⟩
                (daysInMonth state.selected_date.year state.selected_date.month
                  + 1)
                ⟨state.selected_date.year, state.selected_date.month, 1⟩ []
                (leadingCells
                  ⟨state.selected_date.year, state.selected_date.month, 1⟩
                  (numDaysFromMonday
                    ⟨state.selected_date.year, state.selected_date.month,
                      1⟩))).2.2
              (monthLoop state today
                ⟨state.selected_date.year, state.selected_date.month,
                  daysInMonth state.selected_date.year
                    state.selected_date.month⟩
                (daysInMonth state.selected_date.year state.selected_date.month
                  + 1)
                ⟨state.selected_date.year, state.selected_date.month, 1⟩ []
                (leadingCells
                  ⟨state.selected_date.year, state.selected_date.month, 1⟩
                  (numDaysFromMonday
                    ⟨state.selected_date.year, state.selected_date.month,
                      1⟩))).2.1).1]⟩) := by
    by_cases hm12 : state.selected_date.month = 12
    · have hnext := from_ymd_first (y := state.selected_date.year + 1)
        (m := 1) (by omega) (by omega)
      simp only [calculate_layout, hfirst, if_pos hm12, hnext, pred_year_first]
      rw [hm12]
      norm_num [daysInMonth]
    · have hnext := from_ymd_first (y := state.selected_date.year)
        (m := state.selected_date.month + 1) (by omega) (by omega)
      simp only [calculate_layout, hfirst, if_neg hm12, hnext,
        pred_month_first hm1]
  obtain ⟨hW7, hCWlen, hcells⟩ := monthLoop_spec state today
    state.selected_date.year state.selected_date.month hm2
    (daysInMonth state.selected_date.year state.selected_date.month + 1) 1 []
    (leadingCells ⟨state.selected_date.year, state.selected_date.month, 1⟩
      (numDaysFromMonday
        ⟨state.selected_date.year, state.selected_date.month, 1⟩))
    (le_refl 1) (by omega) (by omega) (leadingCells_length _ _)
    (by intro w hw; simp at hw)
  rw [List.flatMap_nil, List.nil_append,
    show daysInMonth state.selected_date.year state.selected_date.month + 1 - 1
      = daysInMonth state.selected_date.year state.selected_date.month from
      by omega] at hcells
  by_cases hemp : ((monthLoop state today
      ⟨state.selected_date.year, state.selected_date.month,
        daysInMonth state.selected_date.year state.selected_date.month⟩
      (daysInMonth state.selected_date.year state.selected_date.month + 1)
      ⟨state.selected_date.year, state.selected_date.month, 1⟩ []
      (leadingCells ⟨state.selected_date.year, state.selected_date.month, 1⟩
        (numDaysFromMonday
          ⟨state.selected_date.year, state.selected_date.month,
            1⟩))).2.1.isEmpty = true)
  · have hnil := List.isEmpty_iff.mp hemp
    have hlay := hcalc.trans (if_pos hemp)
    refine ⟨_, [], hlay, hW7, ?_, by simp⟩
    rw [List.append_nil]
    rw [hnil, List.append_nil] at hcells
    exact hcells
  · have hlt := numDaysFromMonday_lt
      (⟨state.selected_date.year, state.selected_date.month,
        daysInMonth state.selected_date.year state.selected_date.month + 1⟩ :
          Date)
    obtain ⟨pad, hpadeq, hpadlen, hpadflags⟩ := padWeek_spec 7 _ _
      (by rw [hCWlen]; omega) (by omega)
    have hlay := hcalc.trans (if_neg hemp)
    refine ⟨_, pad, hlay, ?_, ?_, hpadflags⟩
    · intro w hw
      rcases List.mem_append.mp hw with h | h
      · exact hW7 w h
      · simp only [List.mem_singleton] at h
        subst h
        show (padWeek 7 _ _).1.length = 7
        rw [hpadeq]
        exact hpadlen
    · rw [List.flatMap_append, List.flatMap_cons, List.flatMap_nil,
        List.append_nil]
      show _ ++ (padWeek 7 _ _).1 = _
      rw [hpadeq, ← List.append_assoc, hcells]

/-! ## C2: month layout grid shape -/

/-- C2: for every valid selected date, the month layout consists of weeks of
exactly 7 cells (so the grid has `weeks.length * 7` cells), the grid is
leading cells, then the month's day cells for days 1 … daysInMonth in order,
then trailing cells, where leading and trailing cells are flagged
`is_current_month = false` (and never selected) while month cells are flagged
`is_current_month = true`; and exactly one cell of the whole grid is
selected. -/
theorem month_layout_grid_shape (state : AppState) (today : Date)
    (hv : state.selected_date.Valid) :
    (∀ w ∈ (calculate_layout state today).weeks, w.days.length = 7) ∧
    (calculate_layout state today).cells.length =
      7 * (calculate_layout state today).weeks.length ∧
    (∃ lead trail : List DayCell,
      (calculate_layout state today).cells =
        lead ++
          (List.range' 1 (daysInMonth state.selected_date.year
              state.selected_date.month)).map
            (fun j => monthDayCell state today
              ⟨state.selected_date.year, state.selected_date.month, j⟩) ++
          trail ∧
      (∀ c ∈ lead, c.is_current_month = false ∧ c.is_selected = false) ∧
      (∀ c ∈ trail, c.is_current_month = false ∧ c.is_selected = false) ∧
      (∀ j : Nat, (monthDayCell state today
        ⟨state.selected_date.year, state.selected_date.month,
          j⟩).is_current_month = true)) ∧
    (calculate_layout state today).cells.countP
      (fun c => c.is_selected) = 1 := by
  obtain ⟨weeks, trail, hlay, hW7, hcells, htrail⟩ :=
    calculate_layout_key state today hv
  obtain ⟨hm1, hm2, hd1, hd2⟩ := hv
  rw [hlay]
  simp only [MonthLayout.cells]
  refine ⟨hW7, weeks_cells_length weeks hW7,
    ⟨leadingCells _ _, trail, hcells, leadingCells_flags _ _, htrail,
      fun j => rfl⟩, ?_⟩
  rw [hcells, List.countP_append, List.countP_append,
    countP_selected_zero (leadingCells_flags _ _),
    countP_selected_zero htrail,
    count_selected_in_month state today hd1 hd2]

/-- C2 witness: the theorem applied to the session opened on 2025-01-15. -/
theorem month_layout_grid_shape_witness :
    (∀ w ∈ (calculate_layout sampleState ⟨2025, 10, 12⟩).weeks,
      w.days.length = 7) ∧
    (calculate_layout sampleState ⟨2025, 10, 12⟩).cells.length =
      7 * (calculate_layout sampleState ⟨2025, 10, 12⟩).weeks.length ∧
    (∃ lead trail : List DayCell,
      (calculate_layout sampleState ⟨2025, 10, 12⟩).cells =
        lead ++
          (List.range' 1 (daysInMonth sampleState.selected_date.year
              sampleState.selected_date.month)).map
            (fun j => monthDayCell sampleState ⟨2025, 10, 12⟩
              ⟨sampleState.selected_date.year,
                sampleState.selected_date.month, j⟩) ++
          trail ∧
      (∀ c ∈ lead, c.is_current_month = false ∧ c.is_selected = false) ∧
      (∀ c ∈ trail, c.is_current_month = false ∧ c.is_selected = false) ∧
      (∀ j : Nat, (monthDayCell sampleState ⟨2025, 10, 12⟩
        ⟨sampleState.selected_date.year, sampleState.selected_date.month,
          j⟩).is_current_month = true)) ∧
    (calculate_layout sampleState ⟨2025, 10, 12⟩).cells.countP
      (fun c => c.is_selected) = 1 :=
  month_layout_grid_shape sampleState ⟨2025, 10, 12⟩ (by decide)

/-! ## Character-class lemmas for the next-word refinement -/

theorem ws_not_word {c : Char} (h : c.isWhitespace = true) :
    is_word_char c = false := by
  simp only [Char.isWhitespace, Bool.or_eq_true, decide_eq_true_eq] at h
  rcases h with ((rfl | rfl) | rfl) | rfl <;> decide

theorem classOf_pred_ws {c0 : Char} (h : c0.isWhitespace = true) (c : Char) :
    (classOf c == classOf c0) = c.isWhitespace := by
  by_cases hc : c.isWhitespace = true
  · simp [classOf, h, hc]
  · by_cases hw : is_word_char c = true <;> simp [classOf, h, hc, hw]

theorem classOf_pred_word {c0 : Char} (h1 : c0.isWhitespace = false)
    (h2 : is_word_char c0 = true) (c : Char) :
    (classOf c == classOf c0) = is_word_char c := by
  by_cases hc : c.isWhitespace = true
  · simp [classOf, h1, h2, hc, ws_not_word hc]
  · by_cases hw : is_word_char c = true <;> simp [classOf, h1, h2, hc, hw]

theorem classOf_pred_other {c0 : Char} (h1 : c0.isWhitespace = false)
    (h2 : is_word_char c0 = false) (c : Char) :
    (classOf c == classOf c0) = (!c.isWhitespace && !is_word_char c) := by
  by_cases hc : c.isWhitespace = true
  · simp [classOf, h1, h2, hc]
  · by_cases hw : is_word_char c = true <;> simp [classOf, h1, h2, hc, hw]

theorem skipCount_congr {p q : Char → Bool} (h : ∀ c, p c = q c)
    (l : List Char) : skipCount p l = skipCount q l := by
  have hpq : p = q := funext h
  rw [hpq]

theorem skipCount_all {p : Char → Bool} {l : List Char}
    (h : ∀ c ∈ l, p c = true) : skipCount p l = l.length := by
  induction l with
  | nil => rfl
  | cons c cs ih =>
    simp only [skipCount, List.length_cons]
    rw [if_pos (h c (List.mem_cons_self c cs)), ih fun x hx =>
      h x (List.mem_cons_of_mem c hx)]

theorem find_next_word_start_eq_spec {text : List Char} {col : Nat}
    (hcol : col < text.length) :
    find_next_word_start text col = nextWordSpecLine text col := by
  have hne : ¬(text.isEmpty = true) := by
    cases text with
    | nil => simp at hcol
    | cons a l => simp
  simp only [find_next_word_start, nextWordSpecLine]
  rw [if_neg hne, Nat.min_eq_left (by omega : col ≤ text.length - 1)]
  by_cases h1 : (text.getD col ' ').isWhitespace = true
  · rw [if_pos h1,
      show skipCount (fun c => classOf c == classOf (text.getD col ' '))
          (text.drop col) = skipCount Char.isWhitespace (text.drop col) from
        skipCount_congr (classOf_pred_ws h1) _]
  · have h1f : (text.getD col ' ').isWhitespace = false := by
      revert h1
      cases (text.getD col ' ').isWhitespace <;> simp
    rw [if_neg h1]
    by_cases h2 : is_word_char (text.getD col ' ') = true
    · rw [if_pos h2,
        show skipCount (fun c => classOf c == classOf (text.getD col ' '))
            (text.drop col) = skipCount is_word_char (text.drop col) from
          skipCount_congr (classOf_pred_word h1f h2) _]
    · have h2f : is_word_char (text.getD col ' ') = false := by
        revert h2
        cases is_word_char (text.getD col ' ') <;> simp
      rw [if_neg h2,
        show skipCount (fun c => classOf c == classOf (text.getD col ' '))
            (text.drop col) =
          skipCount (fun c => !c.isWhitespace && !is_word_char c)
            (text.drop col) from
          skipCount_congr (classOf_pred_other h1f h2f) _]

theorem find_next_word_start_all_ws {cur : List Char}
    (h : ∀ c ∈ cur, c.isWhitespace = true) (hne : cur ≠ []) :
    find_next_word_start cur 0 = none := by
  have hlen : 0 < cur.length := List.length_pos.mpr hne
  have hne2 : ¬(cur.isEmpty = true) := by
    cases cur with
    | nil => exact absurd rfl hne
    | cons a l => simp
  have h0 : (cur.getD 0 ' ').isWhitespace = true := by
    apply h
    rw [List.getD_eq_getElem cur ' ' hlen]
    exact List.getElem_mem hlen
  simp only [find_next_word_start]
  rw [if_neg hne2, Nat.min_eq_left (by omega), if_pos h0, List.drop_zero,
    skipCount_all h, Nat.zero_add, List.drop_length,
    show skipCount Char.isWhitespace [] = 0 from rfl, if_neg (by omega)]

/-! ## The blank-line walk and the next-word refinement -/

theorem nextLoop_blank (rest : List (List Char)) : ∀ cur : List Char,
    (∀ c ∈ cur, c.isWhitespace = true) →
    nextLoop cur rest 0 =
      (match firstNonWsInLines rest with
       | some r => (r.1 + 1, r.2)
       | none => (rest.length, last_char_index (rest.getLastD cur))) := by
  induction rest with
  | nil =>
    intro cur hws
    simp only [nextLoop, firstNonWsInLines]
    cases hcur : cur with
    | nil => simp [last_char_index]
    | cons a cs =>
      rw [hcur] at hws
      rw [if_neg (by simp), find_next_word_start_all_ws hws (by simp)]
      rfl
  | cons next rest2 ih =>
    intro cur hws
    simp only [nextLoop, firstNonWsInLines]
    cases hcur : cur with
    | nil =>
      rw [if_pos (by simp)]
      cases hidx : next.findIdx? (fun c => !c.isWhitespace) with
      | some i => simp [hidx]
      | none =>
        simp only [hidx]
        have hnextws : ∀ c ∈ next, c.isWhitespace = true := by
          intro c hc
          have hf := List.findIdx?_eq_none_iff.mp hidx c hc
          simpa using hf
        rw [ih next hnextws]
        cases hf : firstNonWsInLines rest2 with
        | some r => simp [hf]
        | none =>
          simp only [hf, Option.map_none', List.length_cons, List.getLastD_cons]
    | cons a cs =>
      rw [hcur] at hws
      rw [if_neg (by simp), find_next_word_start_all_ws hws (by simp)]
      cases hidx : next.findIdx? (fun c => !c.isWhitespace) with
      | some i => simp [hidx]
      | none =>
        simp only [hidx]
        have hnextws : ∀ c ∈ next, c.isWhitespace = true := by
          intro c hc
          have hf := List.findIdx?_eq_none_iff.mp hidx c hc
          simpa using hf
        rw [ih next hnextws]
        cases hf : firstNonWsInLines rest2 with
        | some r => simp [hf]
        | none =>
          simp only [hf, Option.map_none', List.length_cons, List.getLastD_cons]

theorem nextLoop_eq_spec (rest : List (List Char)) (cur : List Char)
    (col : Nat) (hcol : col < cur.length) :
    nextLoop cur rest col =
      (match nextWordSpecLine cur col with
       | some c => ((0 : Nat), c)
       | none =>
         match firstNonWsInLines rest with
         | some r => (r.1 + 1, r.2)
         | none => (rest.length, last_char_index (rest.getLastD cur))) := by
  rw [← find_next_word_start_eq_spec hcol]
  cases rest with
  | nil =>
    simp only [nextLoop, firstNonWsInLines]
    rw [if_neg (by omega)]
    cases hfind : find_next_word_start cur col with
    | some c => rfl
    | none => rfl
  | cons next rest2 =>
    simp only [nextLoop, firstNonWsInLines]
    rw [if_neg (by omega)]
    cases hfind : find_next_word_start cur col with
    | some c => rfl
    | none =>
      cases hidx : next.findIdx? (fun c => !c.isWhitespace) with
      | some i => rfl
      | none =>
        have hnextws : ∀ c ∈ next, c.isWhitespace = true := by
          intro c hc
          have hf := List.findIdx?_eq_none_iff.mp hidx c hc
          simpa using hf
        rw [nextLoop_blank rest2 next hnextws]
        cases hf : firstNonWsInLines rest2 with
        | some r => simp [hf]
        | none =>
          simp only [hf, Option.map_none', List.length_cons, List.getLastD_cons]

theorem getLastD_getD (l : List (List Char)) : ∀ a : List Char,
    l.getLastD a = (a :: l).getD l.length [] := by
  induction l with
  | nil => intro a; rfl
  | cons b m ih =>
    intro a
    rw [List.getLastD_cons, ih b]
    rfl

theorem getLastD_drop (lines : List (List Char)) : ∀ i : Nat,
    i < lines.length →
    (lines.drop (i + 1)).getLastD (lines.getD i []) =
      lines.getD (lines.length - 1) [] := by
  induction lines with
  | nil => intro i h; simp at h
  | cons a l ih =>
    intro i h
    cases i with
    | zero =>
      show l.getLastD ((a :: l).getD 0 []) = (a :: l).getD ((a :: l).length - 1) []
      rw [List.getD_cons_zero, getLastD_getD l a]
      simp
    | succ j =>
      have hj : j < l.length := by
        simp only [List.length_cons] at h
        omega
      have hlne : l ≠ [] := by
        intro e
        rw [e] at hj
        simp at hj
      show (l.drop (j + 1)).getLastD ((a :: l).getD (j + 1) []) =
        (a :: l).getD ((a :: l).length - 1) []
      rw [List.getD_cons_succ, ih j hj]
      have hl1 : 0 < l.length := List.length_pos.mpr hlne
      rw [show (a :: l).length - 1 = (l.length - 1) + 1 from by
        simp only [List.length_cons]; omega]
      rw [List.getD_cons_succ]

/-! ## C3: next-word motion refinement -/

/-- C3: next-word motion computes exactly what the spec prescribes: skip the
remainder of the current class run, then any whitespace; if the line is
exhausted, land on the first non-whitespace character of a later line
(continuing through blank lines), and clamp to the final character at the end
of the document — formalised as equality with the spec-side `nextWordSpec`
for every in-bounds cursor; in particular, on
`["alpha beta", "gamma delta"]` with cursor (0, 9) the motion yields
(1, 0). -/
theorem next_word_motion_matches_spec :
    next_word_position ["alpha beta".data, "gamma delta".data] 0 9 = (1, 0) ∧
    (∀ (lines : List (List Char)) (li col : Nat), li < lines.length →
      col < (lines.getD li []).length →
      next_word_position lines li col = nextWordSpec lines li col) := by
  constructor
  · decide
  · intro lines li col hli hcol
    rw [next_word_position_unfold lines li col hli,
      nextLoop_eq_spec (lines.drop (li + 1)) (lines.getD li []) col hcol]
    unfold nextWordSpec
    cases hsl : nextWordSpecLine (lines.getD li []) col with
    | some c => simp [hsl]
    | none =>
      simp only [hsl]
      cases hf : firstNonWsInLines (lines.drop (li + 1)) with
      | some r =>
        simp only [hf, Prod.mk.injEq]
        exact ⟨by omega, trivial⟩
      | none =>
        simp only [hf]
        rw [getLastD_drop lines li hli, List.length_drop]
        simp only [Prod.mk.injEq]
        exact ⟨by omega, trivial⟩

/-- C3 witness: the refinement clause applied to the scenario input. -/
theorem next_word_motion_matches_spec_witness :
    next_word_position ["alpha beta".data, "gamma delta".data] 0 9 =
      nextWordSpec ["alpha beta".data, "gamma delta".data] 0 9 :=
  next_word_motion_matches_spec.2 ["alpha beta".data, "gamma delta".data] 0 9
    (by decide) (by decide)

/-! ## C10: totality and bounds of the word motions -/

/-- C10: the three word motions are total functions (they are `def`s with
structural recursion, so termination is established by construction), return
(0, 0) on an empty line list, and on a non-empty line list always return a
line index strictly below the number of lines, even for out-of-range cursor
inputs, which are clamped rather than causing a panic. -/
theorem navigation_motions_total :
    (∀ li col, next_word_position [] li col = (0, 0) ∧
      word_end_position [] li col = (0, 0) ∧
      prev_word_position [] li col = (0, 0)) ∧
    (∀ (lines : List (List Char)) (li col : Nat), lines ≠ [] →
      (next_word_position lines li col).1 < lines.length ∧
      (word_end_position lines li col).1 < lines.length ∧
      (prev_word_position lines li col).1 < lines.length) := by
  constructor
  · intro li col
    exact ⟨rfl, rfl, rfl⟩
  · intro lines li col hne
    cases lines with
    | nil => exact absurd rfl hne
    | cons a l =>
      refine ⟨?_, ?_, ?_⟩
      · simp only [next_word_position]
        have h1 : Min.min li ((a :: l).length - 1) ≤ (a :: l).length - 1 :=
          Nat.min_le_right _ _
        have h2 := nextLoop_fst_le
          ((a :: l).drop (Min.min li ((a :: l).length - 1) + 1))
          ((a :: l).getD (Min.min li ((a :: l).length - 1)) []) col
        rw [List.length_drop] at h2
        simp only [List.length_cons] at h1 h2 ⊢
        omega
      · simp only [word_end_position]
        have h1 : Min.min li ((a :: l).length - 1) ≤ (a :: l).length - 1 :=
          Nat.min_le_right _ _
        have h2 := wordEndLoop_fst_le
          ((a :: l).drop (Min.min li ((a :: l).length - 1) + 1))
          ((a :: l).getD (Min.min li ((a :: l).length - 1)) []) col
        rw [List.length_drop] at h2
        simp only [List.length_cons] at h1 h2 ⊢
        omega
      · simp only [prev_word_position]
        have h1 : Min.min li ((a :: l).length - 1) ≤ (a :: l).length - 1 :=
          Nat.min_le_right _ _
        simp only [List.length_cons] at h1 ⊢
        omega

/-- C10 witness: the bounds clause applied to a one-line text with an
out-of-range cursor (line 5, column 7). -/
theorem navigation_motions_total_witness :
    (next_word_position ["ab".data] 5 7).1 <
        (["ab".data] : List (List Char)).length ∧
      (word_end_position ["ab".data] 5 7).1 <
        (["ab".data] : List (List Char)).length ∧
      (prev_word_position ["ab".data] 5 7).1 <
        (["ab".data] : List (List Char)).length :=
  navigation_motions_total.2 ["ab".data] 5 7 (by decide)

/-! ## C4: strict progress of next-word motion -/

/-- C4: for a non-empty line list and an in-bounds cursor, one next-word step
is the identity exactly at the final character of the document, and strictly
increases the (line, column) pair in reading order everywhere else. -/
theorem next_word_strict_progress (lines : List (List Char)) (li col : Nat)
    (hne : lines ≠ []) (hli : li < lines.length)
    (hcol : col < (lines.getD li []).length) :
    (next_word_position lines li col = (li, col) ↔
      (li = lines.length - 1 ∧
        col = last_char_index (lines.getD (lines.length - 1) []))) ∧
    (¬(li = lines.length - 1 ∧
        col = last_char_index (lines.getD (lines.length - 1) [])) →
      posLt (li, col) (next_word_position lines li col)) := by
  have hnwp := next_word_position_unfold lines li col hli
  have hiff : (lines.drop (li + 1) = [] ∧ col = (lines.getD li []).length - 1) ↔
      (li = lines.length - 1 ∧
        col = last_char_index (lines.getD (lines.length - 1) [])) := by
    have hd : lines.drop (li + 1) = [] ↔ lines.length ≤ li + 1 :=
      List.drop_eq_nil_iff
    unfold last_char_index
    constructor
    · rintro ⟨ha, hb⟩
      have he : li = lines.length - 1 := by
        have := hd.mp ha
        omega
      subst he
      exact ⟨rfl, hb⟩
    · rintro ⟨ha, hb⟩
      subst ha
      exact ⟨hd.mpr (by omega), hb⟩
  constructor
  · constructor
    · intro heq
      by_contra hnot
      have hprog := nextLoop_progress (lines.drop (li + 1)) (lines.getD li [])
        col hcol (fun hc => hnot (hiff.mp hc))
      rw [hnwp] at heq
      have h1 : li + (nextLoop (lines.getD li []) (lines.drop (li + 1)) col).1 =
          li := congrArg Prod.fst heq
      have h2 : (nextLoop (lines.getD li []) (lines.drop (li + 1)) col).2 =
          col := congrArg Prod.snd heq
      unfold posLt at hprog
      simp only at hprog h1 h2
      omega
    · rintro ⟨ha, hb⟩
      rw [hnwp]
      subst ha
      have hdrop : lines.drop (lines.length - 1 + 1) = [] :=
        List.drop_eq_nil_iff.mpr (by omega)
      rw [hdrop]
      unfold last_char_index at hb
      subst hb
      rw [nextLoop_at_final]
      · simp
      · intro hc
        rw [hc] at hcol
        simp at hcol
  · intro hnot
    rw [hnwp]
    have hprog := nextLoop_progress (lines.drop (li + 1)) (lines.getD li [])
      col hcol (fun hc => hnot (hiff.mp hc))
    unfold posLt at hprog ⊢
    simp only at hprog ⊢
    omega

/-- C4 witness: the theorem applied to the one-line text "ab" with the cursor
on its first character (not the final character, so the motion strictly
advances). -/
theorem next_word_strict_progress_witness :
    (next_word_position ["ab".data] 0 0 = (0, 0) ↔
      ((0 : Nat) = (["ab".data] : List (List Char)).length - 1 ∧
        (0 : Nat) = last_char_index
          ((["ab".data] : List (List Char)).getD
            ((["ab".data] : List (List Char)).length - 1) []))) ∧
    (¬((0 : Nat) = (["ab".data] : List (List Char)).length - 1 ∧
        (0 : Nat) = last_char_index
          ((["ab".data] : List (List Char)).getD
            ((["ab".data] : List (List Char)).length - 1) [])) →
      posLt (0, 0) (next_word_position ["ab".data] 0 0)) :=
  next_word_strict_progress ["ab".data] 0 0 (by decide) (by decide) (by decide)

/-! ## C9: event selection index -/

/-- C9 counterexample: `strandedState` is reached from a fresh session by
adding two events on the selected date, pressing `j` (event selection moves
to index 1) and pressing `}` (month forward).  The month motion changes
`selected_date` without resetting `selected_event_index`, and the resulting
state has index 1 with zero events on the selected date, violating the
claimed invariant. -/
theorem event_index_invariant_counterexample :
    ¬ eventIndexInvariant strandedState ∧
    strandedState.selected_date ≠ preStrandedState.selected_date ∧
    strandedState.selected_event_index = preStrandedState.selected_event_index ∧
    preStrandedState.selected_event_index = 1 := by
  exact ⟨by decide, by decide, by decide, by decide⟩

/-- C9 (amended): only the day-level motions (previous/next day, jump to
today) reset `selected_event_index` to 0; the week and month motions and
`:goto` leave it unchanged, so the index bound can be violated after they
change the date; on a fixed date the event-selection motions themselves
preserve the bound. -/
theorem event_index_reset_behavior :
    (∀ s : AppState, (move_previous_day s).selected_event_index = 0 ∧
      (move_next_day s).selected_event_index = 0 ∧
      ∀ t, (jump_to_today t s).selected_event_index = 0) ∧
    (∀ s : AppState,
      (move_down_week s).selected_event_index = s.selected_event_index ∧
      (move_up_week s).selected_event_index = s.selected_event_index ∧
      (move_previous_month s).selected_event_index = s.selected_event_index ∧
      (move_next_month s).selected_event_index = s.selected_event_index ∧
      ∀ d, (s.apply_goto d).selected_event_index = s.selected_event_index) ∧
    (∀ s : AppState, eventIndexInvariant s →
      eventIndexInvariant s.move_event_selection_down ∧
      eventIndexInvariant s.move_event_selection_up) := by
  refine ⟨?_, ?_, ?_⟩
  · intro s
    exact ⟨rfl, rfl, fun _ => rfl⟩
  · intro s
    refine ⟨by simp only [move_down_week], by simp only [move_up_week], ?_, ?_,
      fun _ => rfl⟩
    · simp only [move_previous_month]
      split
      · rfl
      · split
        · rfl
        · rfl
    · simp only [move_next_month]
      split
      · rfl
      · split
        · rfl
        · rfl
  · intro s hinv
    constructor
    · simp only [AppState.move_event_selection_down]
      split
      · rename_i hcond
        unfold AppState.get_events_for_date at hcond
        unfold eventIndexInvariant AppState.get_events_for_date at hinv ⊢
        simp only at hinv hcond ⊢
        omega
      · exact hinv
    · simp only [AppState.move_event_selection_up]
      split
      · rename_i hcond
        unfold eventIndexInvariant AppState.get_events_for_date at hinv ⊢
        simp only at hinv ⊢
        omega
      · exact hinv

/-- C9 witness for the amended claim: the invariant-preservation clause and
the day-motion reset clause applied to the concrete state
`preStrandedState`. -/
theorem event_index_reset_behavior_witness :
    eventIndexInvariant preStrandedState.move_event_selection_down ∧
    (move_previous_day preStrandedState).selected_event_index = 0 :=
  ⟨(event_index_reset_behavior.2.2 preStrandedState (by decide)).1,
   (event_index_reset_behavior.1 preStrandedState).1⟩

/-! ## C8: colon-command parsing -/

/-- C8: `parse_command` is a total function mapping `:goto` without an
argument to `Error "goto requires a date argument"`, `:goto` with an
unparsable argument to `Error "Invalid date format: <arg>"`, a well-formed
`:goto YYYY-MM-DD` to `Goto`, input not starting with `:` (after trimming) to
`Error "Commands must start with ':'"`, and an unrecognized keyword to
`Error "Unknown command: <keyword>"`. -/
theorem parse_command_spec :
    (parse_command ":goto".data = Command.Error "goto requires a date argument") ∧
    (∀ s t, trimChars s = ':' :: t → splitWhitespace t = ["goto".data] →
      parse_command s = Command.Error "goto requires a date argument") ∧
    (∀ s t arg rest, trimChars s = ':' :: t →
      splitWhitespace t = "goto".data :: arg :: rest →
      parse_from_str_ymd arg = none →
      parse_command s = Command.Error ("Invalid date format: " ++ String.mk arg)) ∧
    (∀ s t arg rest d, trimChars s = ':' :: t →
      splitWhitespace t = "goto".data :: arg :: rest →
      parse_from_str_ymd arg = some d →
      parse_command s = Command.Goto d) ∧
    (∀ s, (trimChars s).head? ≠ some ':' →
      parse_command s = Command.Error "Commands must start with \x27:\x27") ∧
    (∀ s t kw rest, trimChars s = ':' :: t → splitWhitespace t = kw :: rest →
      kw ∉ ["q".data, "quit".data, "w".data, "write".data, "help".data,
        "goto".data, "new".data, "cal".data, "calendar".data, "theme".data] →
      parse_command s = Command.Error ("Unknown command: " ++ String.mk kw)) := by
  refine ⟨by decide, ?_, ?_, ?_, ?_, ?_⟩
  · intro s t htrim hsplit
    simp only [parse_command, htrim, hsplit]
    rw [if_neg (by decide), if_neg (by decide), if_neg (by decide),
      if_pos (by decide)]
  · intro s t arg rest htrim hsplit hdate
    simp only [parse_command, htrim, hsplit, hdate]
    rw [if_neg (by decide), if_neg (by decide), if_neg (by decide),
      if_pos (by decide)]
  · intro s t arg rest d htrim hsplit hdate
    simp only [parse_command, htrim, hsplit, hdate]
    rw [if_neg (by decide), if_neg (by decide), if_neg (by decide),
      if_pos (by decide)]
  · intro s hhead
    simp only [parse_command]
    split
    · rename_i t heq
      rw [heq] at hhead
      exact absurd rfl hhead
    · rfl
  · intro s t kw rest htrim hsplit hmem
    simp only [List.mem_cons, List.not_mem_nil, or_false, not_or] at hmem
    obtain ⟨h1, h2, h3, h4, h5, h6, h7, h8, h9, h10⟩ := hmem
    simp only [parse_command, htrim, hsplit]
    rw [if_neg (by tauto), if_neg (by tauto), if_neg h5, if_neg h6,
      if_neg h7, if_neg (by tauto), if_neg h10]

/-- C8 witness: the general clauses applied to concrete inputs
`":goto 2025-13-99"`, `":goto 2025-01-15"`, `"quit"` and `":frobnicate"`. -/
theorem parse_command_spec_witness :
    parse_command ":goto 2025-13-99".data =
        Command.Error ("Invalid date format: " ++ String.mk "2025-13-99".data) ∧
      parse_command ":goto 2025-01-15".data = Command.Goto ⟨2025, 1, 15⟩ ∧
      parse_command "quit".data =
        Command.Error "Commands must start with \x27:\x27" ∧
      parse_command ":frobnicate".data =
        Command.Error ("Unknown command: " ++ String.mk "frobnicate".data) :=
  ⟨parse_command_spec.2.2.1 _ "goto 2025-13-99".data "2025-13-99".data []
      (by decide) (by decide) (by decide),
   parse_command_spec.2.2.2.1 _ "goto 2025-01-15".data "2025-01-15".data []
      ⟨2025, 1, 15⟩ (by decide) (by decide) (by decide),
   parse_command_spec.2.2.2.2.1 "quit".data (by decide),
   parse_command_spec.2.2.2.2.2 _ "frobnicate".data "frobnicate".data []
      (by decide) (by decide) (by decide)⟩

/-- C7 (amended): from 2025-01-15 in Normal mode, pressing previous-day (`h`)
four times yields 2025-01-11, and pressing previous-month (`{`) once yields
2024-12-15 (wrapping the year backwards). -/
theorem prev_day_prev_month_scenario :
    (handle_key ⟨2025, 1, 15⟩ 9 (KeyCode.Char 'h')
        (handle_key ⟨2025, 1, 15⟩ 9 (KeyCode.Char 'h')
          (handle_key ⟨2025, 1, 15⟩ 9 (KeyCode.Char 'h')
            (handle_key ⟨2025, 1, 15⟩ 9 (KeyCode.Char 'h')
              sampleState)))).selected_date = ⟨2025, 1, 11⟩ ∧
      (handle_key ⟨2025, 1, 15⟩ 9 (KeyCode.Char '{') sampleState).selected_date =
        ⟨2024, 12, 15⟩ := by
  constructor
  · decide
  · decide

end Gcal
